import Mathlib

/-!
Verification of the version-reconciliation engine of the dependency-audit
repository (three Go variants: a repo-list checker, an npm `package.json`
checker, and an Erlang `rebar.config` checker).

The Go sources are shallowly embedded over `List Char` (Go strings are
modelled as their character lists).  The helpers of Go's standard
`strings` package, of `strconv.ParseInt`, of `time` formatting and of the
`golang.org/x/mod/semver` library that the repository calls are embedded
faithfully from their documented/actual behaviour; the repository's own
functions (`checkUpdate`, `checkNpmUpdate` in two variants,
`checkUpdateAndCreateReport`, `parseGitHubRepoURL`, `parseGitHubURL`,
`extractBodyFromChangelog`, the changelog-summary logic of `writeOutput`)
are translated statement by statement.  Network calls are modelled by
passing the fetched data (or the error) as explicit arguments.
-/

set_option maxRecDepth 4000

/-! ## Models of Go `strings` helpers -/

/-- `strings.HasPrefix`. -/
def hasPre (p s : List Char) : Bool := List.isPrefixOf p s

/-- `strings.TrimPrefix`: drop `p` from the front of `s` when it is there. -/
def goTrimPre (p s : List Char) : List Char :=
  if hasPre p s then s.drop p.length else s

/-- `strings.TrimSuffix`: drop `p` from the end of `s` when it is there. -/
def goTrimSuf (p s : List Char) : List Char :=
  if List.isSuffixOf p s then s.take (s.length - p.length) else s

/-- `strings.Split(s, sep)` for a one-character separator `sep`. -/
def splitOnChar (c : Char) : List Char → List (List Char)
  | [] => [[]]
  | x :: xs =>
    if x = c then [] :: splitOnChar c xs
    else
      match splitOnChar c xs with
      | h :: t => (x :: h) :: t
      | [] => [[x]]

/-- Prepend a character to the first chunk of a split result. -/
def sdCons (x : Char) : List (List Char) → List (List Char)
  | h :: t => (x :: h) :: t
  | [] => [[x]]

/-- `strings.Split(s, "---")`: leftmost non-overlapping matches of the
three-dash marker used by the changelog formats. -/
def splitDashes : List Char → List (List Char)
  | [] => [[]]
  | [x] => [[x]]
  | [x, y] => [[x, y]]
  | x :: y :: z :: rest =>
    if x = '-' ∧ y = '-' ∧ z = '-' then [] :: splitDashes rest
    else sdCons x (splitDashes (y :: z :: rest))

/-- `strings.Contains(s, needle)`. -/
def containsSub (needle : List Char) : List Char → Bool
  | [] => needle.isEmpty
  | x :: xs => List.isPrefixOf needle (x :: xs) || containsSub needle xs

/-- The white-space test of Go's `strings.TrimSpace` (`unicode.IsSpace`),
restricted to the Latin-1 range that can occur in the data handled here. -/
def goIsSpace (c : Char) : Bool :=
  c.toNat = 32 || c.toNat = 9 || c.toNat = 10 || c.toNat = 11 ||
  c.toNat = 12 || c.toNat = 13 || c.toNat = 133 || c.toNat = 160

/-- Drop the trailing characters satisfying `p` (right half of
`strings.TrimFunc` / `strings.TrimSpace`). -/
def dropRightBy (p : Char → Bool) : List Char → List Char
  | [] => []
  | x :: xs =>
    match dropRightBy p xs with
    | [] => if p x then [] else [x]
    | r => x :: r

/-- `strings.TrimSpace`. -/
def goTrimSpace (s : List Char) : List Char :=
  dropRightBy goIsSpace (s.dropWhile goIsSpace)

/-- `strings.TrimFunc`: trim characters satisfying `p` from both ends. -/
def goTrimFunc (p : Char → Bool) (s : List Char) : List Char :=
  dropRightBy p (s.dropWhile p)

/-- `strings.ToLower`, on the ASCII letters that the keyword scan needs. -/
def goToLower (s : List Char) : List Char := s.map Char.toLower

/-- `strings.ReplaceAll(s, old, "")` for a single character `old`. -/
def removeChar (c : Char) (s : List Char) : List Char := s.filter (· ≠ c)

/-- `strings.ReplaceAll(s, old, new)` for single characters. -/
def replaceChar (a b : Char) (s : List Char) : List Char :=
  s.map fun c => if c = a then b else c

/-- `strings.ReplaceAll(s, "  ", " ")`: leftmost non-overlapping
replacement of double spaces by single spaces. -/
def replDouble : List Char → List Char
  | [] => []
  | [x] => [x]
  | x :: y :: rest =>
    if x = ' ' ∧ y = ' ' then ' ' :: replDouble rest
    else x :: replDouble (y :: rest)

/-- `strings.ReplaceAll(s, "|", "\\|")`. -/
def escapePipes : List Char → List Char
  | [] => []
  | x :: rest => if x = '|' then '\\' :: '|' :: escapePipes rest else x :: escapePipes rest

theorem replDouble_length_le (s : List Char) : (replDouble s).length ≤ s.length := by
  induction s using replDouble.induct with
  | case1 => simp [replDouble]
  | case2 x => simp [replDouble]
  | case3 x y rest h ih =>
    simp only [replDouble, if_pos h, List.length_cons]
    omega
  | case4 x y rest h ih =>
    simp only [replDouble, if_neg h, List.length_cons]
    simp only [List.length_cons] at ih
    omega

theorem containsSub_double_space_length_lt (s : List Char)
    (h : containsSub ([' ', ' ']) s = true) :
    (replDouble s).length < s.length := by
  induction s using replDouble.induct with
  | case1 => simp [containsSub] at h
  | case2 x => simp [containsSub, List.isPrefixOf] at h
  | case3 x y rest hxy ih =>
    simp only [replDouble, if_pos hxy, List.length_cons]
    have := replDouble_length_le rest
    omega
  | case4 x y rest hxy ih =>
    simp only [replDouble, if_neg hxy, List.length_cons]
    have hrest : containsSub ([' ', ' ']) (y :: rest) = true := by
      have h2 : (List.isPrefixOf ([' ', ' ']) (x :: y :: rest) ||
          containsSub ([' ', ' ']) (y :: rest)) = true := h
      rw [Bool.or_eq_true] at h2
      rcases h2 with h2 | h2
      · exfalso
        simp only [List.isPrefixOf, Bool.and_eq_true, beq_iff_eq] at h2
        exact hxy ⟨h2.1.symm, h2.2.1.symm⟩
      · exact h2
    have := ih hrest
    simp only [List.length_cons] at this ⊢
    omega

/-- The `for strings.Contains(body, "  ") { body = ReplaceAll(body, "  ", " ") }`
loop of `extractBodyFromChangelog`, with an explicit fuel argument.  Each
pass through the loop strictly shortens the string
(`containsSub_double_space_length_lt`), so any fuel of at least the
string's length reaches the loop's fixed point. -/
def collapseFuel : Nat → List Char → List Char
  | 0, s => s
  | n + 1, s =>
    if containsSub ([' ', ' ']) s then collapseFuel n (replDouble s) else s

/-- The collapse loop run to its fixed point. -/
def collapseSpaces (s : List Char) : List Char := collapseFuel (s.length + 1) s

/-! ## Model of `golang.org/x/mod/semver`

Faithful translation of `parse`, `parseInt`, `parsePrerelease`,
`parseBuild`, `compareInt`, `comparePrerelease`, `Compare`, `IsValid`
from the library's source.  An invalid semantic version string compares
less than a valid one and equal to other invalid ones. -/

namespace GoSemver

def isDigitCh (c : Char) : Bool := '0' ≤ c && c ≤ '9'

/-- `isIdentChar`: `[0-9A-Za-z-]`. -/
def isIdentCh (c : Char) : Bool :=
  ('0' ≤ c && c ≤ '9') || ('a' ≤ c && c ≤ 'z') || ('A' ≤ c && c ≤ 'Z') || c = '-'

/-- `isNum`: the identifier consists only of digits. -/
def isNum (v : List Char) : Bool := v.all isDigitCh

/-- `isBadNum`: all digits, longer than one character, with a leading zero. -/
def isBadNum (v : List Char) : Bool :=
  isNum v && v.length > 1 && (v.headD ' ' = '0')

/-- `parseInt`: a non-empty digit run without leading zeros, returning the
run and the rest of the string. -/
def parseInt (v : List Char) : Option (List Char × List Char) :=
  match v with
  | [] => none
  | c :: _ =>
    if !isDigitCh c then none
    else
      let t := v.takeWhile isDigitCh
      if c = '0' ∧ t.length ≠ 1 then none
      else some (t, v.dropWhile isDigitCh)

/-- Validity of one dot-separated pre-release identifier. -/
def preIdentOk (seg : List Char) : Bool := ¬ seg.isEmpty && ¬ isBadNum seg

/-- `parsePrerelease`: a `-`, then dot-separated identifiers of
`isIdentChar` characters (numeric ones without leading zeros), running up
to a `+` or the end; returns the consumed part (with the `-`) and the rest. -/
def parsePre (v : List Char) : Option (List Char × List Char) :=
  match v with
  | '-' :: w =>
    let t := w.takeWhile (· ≠ '+')
    let rest := w.dropWhile (· ≠ '+')
    if t.all (fun c => isIdentCh c || c = '.') &&
        (splitOnChar '.' t).all preIdentOk then
      some ('-' :: t, rest)
    else none
  | _ => none

/-- `parseBuild`: a `+`, then dot-separated non-empty identifiers of
`isIdentChar` characters, running to the end of the string. -/
def parseBuild (v : List Char) : Option (List Char × List Char) :=
  match v with
  | '+' :: w =>
    if w.all (fun c => isIdentCh c || c = '.') &&
        (splitOnChar '.' w).all (fun seg => ¬ seg.isEmpty) then
      some ('+' :: w, [])
    else none
  | _ => none

structure Parsed where
  major : List Char
  minor : List Char
  patch : List Char
  pre : List Char
  build : List Char
deriving DecidableEq

/-- `parse`: `v` must start with `"v"`; `MAJOR[.MINOR[.PATCH[-pre][+build]]]`. -/
def parse (v : List Char) : Option Parsed :=
  match v with
  | 'v' :: v1 =>
    match parseInt v1 with
    | none => none
    | some (major, v2) =>
      if v2.isEmpty then some ⟨major, ['0'], ['0'], [], []⟩
      else
        match v2 with
        | '.' :: v3 =>
          match parseInt v3 with
          | none => none
          | some (minor, v4) =>
            if v4.isEmpty then some ⟨major, minor, ['0'], [], []⟩
            else
              match v4 with
              | '.' :: v5 =>
                match parseInt v5 with
                | none => none
                | some (patch, v6) =>
                  let st1 : Option (List Char × List Char) :=
                    match v6 with
                    | '-' :: _ => parsePre v6
                    | _ => some ([], v6)
                  match st1 with
                  | none => none
                  | some (pre, v7) =>
                    let st2 : Option (List Char × List Char) :=
                      match v7 with
                      | '+' :: _ => parseBuild v7
                      | _ => some ([], v7)
                    match st2 with
                    | none => none
                    | some (build, v8) =>
                      if v8.isEmpty then some ⟨major, minor, patch, pre, build⟩
                      else none
              | _ => none
        | _ => none
  | _ => none

/-- `IsValid`. -/
def isValid (v : List Char) : Bool := (parse v).isSome

/-- Lexicographic comparison of equal-length digit runs (tail of
`compareInt`). -/
def lexLt : List Char → List Char → Bool
  | [], [] => false
  | [], _ :: _ => true
  | _ :: _, [] => false
  | a :: x, b :: y => if a = b then lexLt x y else decide (a < b)

/-- `compareInt`: decimal strings without leading zeros compare by length,
then lexicographically. -/
def compareInt (x y : List Char) : Int :=
  if x = y then 0
  else if x.length < y.length then -1
  else if x.length > y.length then 1
  else if lexLt x y then -1 else 1

/-- `nextIdent`: split at the next dot. -/
def nextIdent (x : List Char) : List Char × List Char :=
  (x.takeWhile (· ≠ '.'), x.dropWhile (· ≠ '.'))

theorem dropWhile_len_le (p : Char → Bool) (l : List Char) :
    (l.dropWhile p).length ≤ l.length := by
  induction l with
  | nil => simp
  | cons a as ih =>
    by_cases h : p a
    · simp only [List.dropWhile_cons, h, if_true, List.length_cons]
      omega
    · simp [List.dropWhile_cons, h]

/-- The loop of `comparePrerelease`: both arguments start with `-` or `.`
followed by identifiers.  The fuel argument makes the recursion
structural; every pass strictly consumes at least one character of `x`,
so any fuel of at least `x.length` runs the loop to completion. -/
def cprLoop : Nat → List Char → List Char → Int
  | 0, _, _ => 0
  | fuel + 1, x, y =>
    if x.isEmpty ∨ y.isEmpty then (if x.isEmpty then -1 else 1)
    else
      let dx := (x.tail).takeWhile (· ≠ '.')
      let rx := (x.tail).dropWhile (· ≠ '.')
      let dy := (y.tail).takeWhile (· ≠ '.')
      let ry := (y.tail).dropWhile (· ≠ '.')
      if dx = dy then cprLoop fuel rx ry
      else if isNum dx ∧ ¬ isNum dy then -1
      else if ¬ isNum dx ∧ isNum dy then 1
      else if isNum dx ∧ dx.length < dy.length then -1
      else if isNum dx ∧ dx.length > dy.length then 1
      else if lexLt dx dy then -1 else 1

/-- `comparePrerelease`: absence of a pre-release sorts above presence. -/
def comparePre (x y : List Char) : Int :=
  if x = y then 0
  else if x.isEmpty then 1
  else if y.isEmpty then -1
  else cprLoop (x.length + 1) x y

/-- `semver.Compare`. -/
def compare (v w : List Char) : Int :=
  match parse v, parse w with
  | none, none => 0
  | none, some _ => -1
  | some _, none => 1
  | some pv, some pw =>
    if compareInt pv.major pw.major ≠ 0 then compareInt pv.major pw.major
    else if compareInt pv.minor pw.minor ≠ 0 then compareInt pv.minor pw.minor
    else if compareInt pv.patch pw.patch ≠ 0 then compareInt pv.patch pw.patch
    else comparePre pv.pre pw.pre

end GoSemver

/-! ## Models of `strconv.ParseInt` and `time.Unix(...).Format(time.RFC1123)` -/

/-- `strconv.ParseInt(s, 10, 64)`: optional sign, then decimal digits;
`none` models the error return (empty, stray characters, or 64-bit
overflow). -/
def goParseInt64 (s : List Char) : Option Int :=
  let signDigits : Bool × List Char :=
    match s with
    | '+' :: rest => (false, rest)
    | '-' :: rest => (true, rest)
    | _ => (false, s)
  let neg := signDigits.1
  let digits := signDigits.2
  if digits.isEmpty then none
  else if !digits.all GoSemver.isDigitCh then none
  else
    let v : Nat := digits.foldl (fun acc c => acc * 10 + (c.toNat - 48)) 0
    let i : Int := if neg then -(v : Int) else (v : Int)
    if -(2 ^ 63) ≤ i ∧ i ≤ 2 ^ 63 - 1 then some i else none

/-- Decimal digits of a natural number. -/
def natChars (n : Nat) : List Char := Nat.toDigits 10 n

/-- Two-digit zero-padded decimal. -/
def pad2 (n : Nat) : List Char := if n < 10 then '0' :: natChars n else natChars n

/-- Weekday names, `0` = Sunday (the Unix epoch day is a Thursday). -/
def dayName (n : Nat) : List Char :=
  match n with
  | 0 => ("Sun").data
  | 1 => ("Mon").data
  | 2 => ("Tue").data
  | 3 => ("Wed").data
  | 4 => ("Thu").data
  | 5 => ("Fri").data
  | _ => ("Sat").data

/-- Month names, `1` = January. -/
def monthName (n : Nat) : List Char :=
  match n with
  | 1 => ("Jan").data
  | 2 => ("Feb").data
  | 3 => ("Mar").data
  | 4 => ("Apr").data
  | 5 => ("May").data
  | 6 => ("Jun").data
  | 7 => ("Jul").data
  | 8 => ("Aug").data
  | 9 => ("Sep").data
  | 10 => ("Oct").data
  | 11 => ("Nov").data
  | _ => ("Dec").data

/-- `time.Unix(t, 0).Format(time.RFC1123)` — layout
`"Mon, 02 Jan 2006 15:04:05 MST"` — with the process's local time zone
taken to be UTC.  The civil date is recovered from the day number with
the standard era/day-of-era computation. -/
def rfc1123 (t : Int) : List Char :=
  let days := t.fdiv 86400
  let secs := (t - days * 86400).toNat
  let hh := secs / 3600
  let mm := secs % 3600 / 60
  let ss := secs % 60
  let wd := ((days + 4).emod 7).toNat
  let z := days + 719468
  let era := z.fdiv 146097
  let doe := (z - era * 146097).toNat
  let yoe := (doe - doe / 1460 + doe / 36524 - doe / 146096) / 365
  let doy := doe - (365 * yoe + yoe / 4 - yoe / 100)
  let mp := (5 * doy + 2) / 153
  let d := doy - (153 * mp + 2) / 5 + 1
  let m := if mp < 10 then mp + 3 else mp - 9
  let y : Int := era * 400 + yoe + (if m ≤ 2 then 1 else 0)
  dayName wd ++ (", ").data ++ pad2 d ++ (" ").data ++ monthName m ++
    (" ").data ++ natChars y.toNat ++ (" ").data ++ pad2 hh ++ (":").data ++
    pad2 mm ++ (":").data ++ pad2 ss ++ (" UTC").data

/-! ## Shared domain model

A GitHub release (`release.GetTagName()`, `GetName()`, `GetBody()`), the
npm registry answer (`NpmInfo`), the relevant parts of a GitHub HTTP
response (status code and the two rate-limit headers), and the report
records of the three program variants. -/

structure Release where
  tagName : List Char
  name : List Char
  body : List Char
deriving DecidableEq

structure NpmInfo where
  version : List Char
  repoURL : List Char
deriving DecidableEq

structure GhResp where
  statusCode : Nat
  rlRemaining : List Char
  rlReset : List Char
deriving DecidableEq

/-- `UpdateInfo` of `main.go` and of the npm variant without the archived
check. -/
structure UpdateInfo where
  repo : List Char
  currentVersion : List Char
  latestVersion : List Char
  updateNeeded : Bool
  securityPatch : Bool
  releaseNotes : List (List Char)
  status : List Char
deriving DecidableEq

/-- `UpdateInfo` of the frontend npm variant, which adds `IsArchived`. -/
structure UpdateInfoF where
  repo : List Char
  currentVersion : List Char
  latestVersion : List Char
  updateNeeded : Bool
  securityPatch : Bool
  isArchived : Bool
  releaseNotes : List (List Char)
  status : List Char
deriving DecidableEq

/-- `DependencyInfo` of the Erlang `rebar.config` variant. -/
structure DependencyInfo where
  name : List Char
  currentVersion : List Char
  repoURL : List Char
  latestVersion : List Char
  updateNeeded : Bool
  status : List Char
deriving DecidableEq

/-- `if !strings.HasPrefix(s, "v") { s = "v" + s }`. -/
def addV (s : List Char) : List Char :=
  if hasPre (("v").data) s then s else 'v' :: s

/-- The cut set of `strings.TrimFunc(currentVer, ...)` in both npm
variants: `strings.ContainsRune("^~=>", r)`. -/
def rangeCut (c : Char) : Bool := c = '^' || c = '~' || c = '=' || c = '>'

/-- Version cleaning of the npm variants: trim `^ ~ = >` from both ends,
then ensure a leading `v`. -/
def cleanVerOf (currentVer : List Char) : List Char :=
  addV (goTrimFunc rangeCut currentVer)

/-- Keyword scan shared by all variants:
`body := strings.ToLower(release.GetBody() + " " + release.GetName())`
followed by the four case-insensitive substring tests. -/
def secMatch (r : Release) : Bool :=
  let b := goToLower (r.body ++ (" ").data ++ r.name)
  containsSub (("security").data) b || containsSub (("vulnerability").data) b ||
    containsSub (("cve").data) b || containsSub (("patch").data) b

/-- Tag normalisation of the npm variants: take the part after the last
`"@"` when the tag contains one, then ensure a leading `v`. -/
def normTagAt (tag : List Char) : List Char :=
  let parts := splitOnChar '@' tag
  addV (if parts.length > 1 then parts.getLastD [] else tag)

/-- The rate-limit branch guard of both npm variants:
`resp != nil && resp.StatusCode == http.StatusForbidden &&
strings.Contains(resp.Header.Get("X-RateLimit-Remaining"), "0")`. -/
def rlCond (resp : Option GhResp) : Bool :=
  match resp with
  | some r => r.statusCode = 403 && containsSub (("0").data) r.rlRemaining
  | none => false

/-! ## URL parsing -/

/-- `parseGitHubRepoURL` of both npm variants. -/
def parseGitHubRepoURL (url0 : List Char) : List Char × List Char :=
  let u1 := goTrimPre (("git://").data) url0
  let u2 := goTrimPre (("git+https://").data) u1
  let u3 := goTrimPre (("https://").data) u2
  let u4 := goTrimPre (("http://").data) u3
  let u5 := goTrimPre (("git@").data) u4
  let u6 := (splitOnChar '#' u5).headD []
  let u7 := goTrimSuf ((".git").data) u6
  let cparts := splitOnChar ':' u7
  let u8 := if cparts.length > 1 then cparts.getD 1 [] else u7
  let parts := (splitOnChar '/' u8).filter (fun p => ¬ p.isEmpty)
  if parts.length ≥ 2 ∧ (containsSub (("github.com").data) (parts.headD []) ∨
      containsSub (("gitlab.com").data) (parts.headD [])) then
    if parts.length ≥ 3 then (parts.getD 1 [], parts.getD 2 []) else ([], [])
  else if parts.length ≥ 2 then (parts.headD [], parts.getD 1 [])
  else ([], [])

/-- `parseGitHubURL` of the Erlang variant. -/
def parseGitHubURL (url0 : List Char) : List Char × List Char :=
  let u1 := goTrimSuf ((".git").data) url0
  let u2 := goTrimPre (("git://").data) u1
  let u3 := goTrimPre (("https://github.com/").data) u2
  let parts := splitOnChar '/' u3
  if parts.length ≥ 2 then (parts.headD [], parts.getD 1 []) else ([], [])

/-! ## Status strings -/

def upToDateStatus : List Char := ("✅ Up to date").data
def urgentStatus : List Char := ("🚨 URGENT Update Required (Security Patch!)").data
def recommendStatus : List Char := ("🔄 Update Recommended").data
def recUnavailStatus : List Char := ("🔄 Update Recommended (Changelog unavailable)").data
def repoMissingStatus : List Char := ("🔄 Update Recommended (Repo link missing)").data
def deprecatedArchivedStatus : List Char := ("⛔️ DEPRECATED (Archived)").data
def deprecatedUpdateStatus : List Char := ("⛔️ DEPRECATED (Update Needed)").data
def deprecatedUpToDateStatus : List Char := ("⛔️ DEPRECATED (Up to date)").data

/-! ## `main.go`: `checkUpdate` -/

/-- The changelog entry format of `main.go`:
`"\n--- Changelog for %s (%s) ---\n%s\n"`. -/
def mainDetail (r : Release) : List Char :=
  ("\n--- Changelog for ").data ++ r.name ++ (" (").data ++ r.tagName ++
    (") ---\n").data ++ r.body ++ ("\n").data

/-- The body of the release loop of `checkUpdate` (`main.go`): for every
release whose v-prefixed tag is strictly newer than the current version,
run the keyword scan and append the full changelog entry. -/
def mainStep (currentVer : List Char) (acc : UpdateInfo) (r : Release) : UpdateInfo :=
  let tag := addV r.tagName
  if GoSemver.compare currentVer tag < 0 then
    let acc1 := if secMatch r then { acc with securityPatch := true } else acc
    { acc1 with releaseNotes := acc1.releaseNotes ++ [mainDetail r] }
  else acc

/-- `checkUpdate` of `main.go`.  `fetched` models the outcome of
`client.Repositories.ListReleases` (error message or release list). -/
def mainCheckUpdate (owner repo currentVer : List Char)
    (fetched : Except (List Char) (List Release)) : UpdateInfo :=
  let info0 : UpdateInfo :=
    ⟨owner ++ ("/").data ++ repo, currentVer, ("N/A").data, false, false, [], []⟩
  match fetched with
  | .error e => { info0 with status := ("❌ ERROR: ").data ++ e }
  | .ok [] => { info0 with status := ("❌ ERROR: No releases found.").data }
  | .ok (first :: rest) =>
    let latestVer := addV first.tagName
    let info1 := { info0 with latestVersion := latestVer }
    if GoSemver.compare currentVer latestVer < 0 then
      let info2 := (first :: rest).foldl (mainStep currentVer)
        { info1 with updateNeeded := true }
      { info2 with status := if info2.securityPatch then urgentStatus else recommendStatus }
    else { info1 with status := upToDateStatus }

/-! ## Shared npm-variant message formats -/

/-- `"❌ NPM Fetch Error: " + err`. -/
def npmFetchErr (e : List Char) : List Char := ("❌ NPM Fetch Error: ").data ++ e

/-- The changelog entry format of both npm variants:
`"\n--- Latest Changelog for %s (Tag: %s) (Owner: %s) (Repo: %s) ---\n%s\n"`. -/
def npmDetail (r : Release) (owner repo : List Char) : List Char :=
  ("\n--- Latest Changelog for ").data ++ r.name ++ (" (Tag: ").data ++ r.tagName ++
    (") (Owner: ").data ++ owner ++ (") (Repo: ").data ++ repo ++ (") ---\n").data ++
    r.body ++ ("\n").data

/-- `"❌ GitHub Rate Limit Exceeded. Try again after %s. (Repo: %s/%s)"`. -/
def rlExceededMsg (resetFmt owner repo : List Char) : List Char :=
  ("❌ GitHub Rate Limit Exceeded. Try again after ").data ++ resetFmt ++
    (". (Repo: ").data ++ owner ++ ("/").data ++ repo ++ (")").data

/-- The `ReleaseNotesList[0]` test of the final status assignment:
nil/empty, or first entry marked `"Warning:"` or `"❌"`. -/
def notesBad (ns : List (List Char)) : Bool :=
  match ns with
  | [] => true
  | n :: _ => hasPre (("Warning:").data) n || hasPre (("❌").data) n

/-! ## `frontend/frontend.go`: `checkNpmUpdate` -/

/-- `"Warning: Could not list releases from GitHub (%s/%s). Error: %v"`. -/
def listErrWarn (owner repo e : List Char) : List Char :=
  ("Warning: Could not list releases from GitHub (").data ++ owner ++ ("/").data ++
    repo ++ ("). Error: ").data ++ e

/-- `"Warning: Could not fetch specific release details for version %s, or only tags exist. (Repo: %s/%s)"`. -/
def noDetailWarn (latestVer owner repo : List Char) : List Char :=
  ("Warning: Could not fetch specific release details for version ").data ++ latestVer ++
    (", or only tags exist. (Repo: ").data ++ owner ++ ("/").data ++ repo ++ (")").data

/-- The rate-limit note of the frontend variant: the parse error of
`strconv.ParseInt` is discarded (`resetTimeInt, _ := ...`), so a bad
header formats the zero time. -/
def fRlNote (lresp : Option GhResp) (owner repo : List Char) : List Char :=
  match lresp with
  | some resp => rlExceededMsg (rfc1123 ((goParseInt64 resp.rlReset).getD 0)) owner repo
  | none => []

/-- The release loop of the frontend variant: `break` at the first release
whose normalised tag is not strictly newer than the current version; scan
each processed release for security keywords; store the changelog entry of
the first processed release only (`foundLatestReleaseChangelog`). -/
def fScanAux (cleanVer owner repo : List Char) (rels : List Release)
    (info : UpdateInfoF) (found : Bool) : UpdateInfoF × Bool :=
  match rels with
  | [] => (info, found)
  | r :: rest =>
    let tag := normTagAt r.tagName
    if GoSemver.compare tag cleanVer ≤ 0 then (info, found)
    else
      let info1 := if secMatch r then { info with securityPatch := true } else info
      if found then fScanAux cleanVer owner repo rest info1 true
      else fScanAux cleanVer owner repo rest
        { info1 with releaseNotes := info1.releaseNotes ++ [npmDetail r owner repo] } true

/-- The final status assignment of the frontend variant. -/
def fFinalStatus (i : UpdateInfoF) : List Char :=
  if i.isArchived then
    (if i.updateNeeded then deprecatedUpdateStatus else deprecatedUpToDateStatus)
  else if i.securityPatch then urgentStatus
  else if !i.updateNeeded then upToDateStatus
  else if notesBad i.releaseNotes then recUnavailStatus
  else recommendStatus

/-- The release-notes stage of the frontend variant (run only when an
update is needed): the rate-limit branch, the list-releases error branch,
or the release scan with its fallback warning. -/
def fNotesStage (cleanVer owner repo latestVer : List Char) (lresp : Option GhResp)
    (lerr : Option (List Char)) (releases : List Release) (info2 : UpdateInfoF) :
    UpdateInfoF :=
  if rlCond lresp then
    { info2 with releaseNotes := info2.releaseNotes ++ [fRlNote lresp owner repo] }
  else
    match lerr with
    | some e =>
      { info2 with releaseNotes := info2.releaseNotes ++ [listErrWarn owner repo e] }
    | none =>
      let sres := fScanAux cleanVer owner repo releases info2 false
      if sres.2 then sres.1
      else { sres.1 with
        releaseNotes := sres.1.releaseNotes ++ [noDetailWarn latestVer owner repo] }

/-- `checkNpmUpdate` of `frontend/frontend.go`.  `npm` models
`fetchNpmInfo`, `repoRes` models `client.Repositories.Get` (the archived
flag; an error leaves the flag false), and `lresp`/`lerr`/`releases`
model the response, error and data of `client.Repositories.ListReleases`. -/
def frontendCheck (pkgName currentVer : List Char) (npm : Except (List Char) NpmInfo)
    (repoRes : Except (List Char) Bool) (lresp : Option GhResp)
    (lerr : Option (List Char)) (releases : List Release) : UpdateInfoF :=
  let cleanVer := cleanVerOf currentVer
  let info0 : UpdateInfoF := ⟨pkgName, cleanVer, ("N/A").data, false, false, false, [], []⟩
  match npm with
  | .error e => { info0 with status := npmFetchErr e }
  | .ok ni =>
    let latestVer := addV ni.version
    let needed := decide (GoSemver.compare cleanVer latestVer < 0)
    let info1 := { info0 with latestVersion := latestVer, updateNeeded := needed }
    let pr := parseGitHubRepoURL ni.repoURL
    let owner := pr.1
    let repo := pr.2
    if owner.isEmpty || repo.isEmpty then { info1 with status := repoMissingStatus }
    else
      let arch := match repoRes with | .ok b => b | .error _ => false
      let info2 :=
        if arch then { info1 with isArchived := true, status := deprecatedArchivedStatus }
        else info1
      if arch && !needed then info2
      else
        let info3 :=
          if needed then fNotesStage cleanVer owner repo latestVer lresp lerr releases info2
          else info2
        { info3 with status := fFinalStatus info3 }

/-! ## npm variant without the archived check: `checkNpmUpdate` -/

/-- Rate-limit note with an unparseable reset header
(`"❌ GitHub Rate Limit Exceeded. (Error parsing time: %v) (Repo: %s/%s)"`,
where `%v` is the `strconv` error text). -/
def p1RlParseErr (reset owner repo : List Char) : List Char :=
  ("❌ GitHub Rate Limit Exceeded. (Error parsing time: strconv.ParseInt: parsing \x22").data ++
    reset ++ ("\x22: invalid syntax) (Repo: ").data ++ owner ++ ("/").data ++ repo ++ (")").data

/-- The rate-limit note of the no-archived-check npm variant: here the
parse error of `strconv.ParseInt` is checked. -/
def p1RlNote (gresp : Option GhResp) (owner repo : List Char) : List Char :=
  match gresp with
  | some resp =>
    match goParseInt64 resp.rlReset with
    | some n => rlExceededMsg (rfc1123 n) owner repo
    | none => p1RlParseErr resp.rlReset owner repo
  | none => []

/-- `"Warning: Found Tag '%s'. Changelog unavailable (Repo: %s/%s)"`. -/
def foundTagWarn (tag owner repo : List Char) : List Char :=
  ("Warning: Found Tag '").data ++ tag ++ ("'. Changelog unavailable (Repo: ").data ++
    owner ++ ("/").data ++ repo ++ (")").data

/-- `"Warning: Could not fetch release or tag details from GitHub (%s/%s). Error: %v"`. -/
def p1NotFoundWarn (owner repo e : List Char) : List Char :=
  ("Warning: Could not fetch release or tag details from GitHub (").data ++ owner ++
    ("/").data ++ repo ++ ("). Error: ").data ++ e

/-- `"Warning: Could not fetch latest release details from GitHub (%s/%s). Error: %v"`. -/
def p1RelErrWarn (owner repo e : List Char) : List Char :=
  ("Warning: Could not fetch latest release details from GitHub (").data ++ owner ++
    ("/").data ++ repo ++ ("). Error: ").data ++ e

/-- `"Warning: Could not extract GitHub repo from NPM URL: %s"`. -/
def noRepoWarn (url : List Char) : List Char :=
  ("Warning: Could not extract GitHub repo from NPM URL: ").data ++ url

/-- The tag-search loop of the 404 fallback: first tag that ends with the
un-prefixed latest version or equals it, `break` after the first hit. -/
def p1FindTagNote (tags : List (List Char)) (latestVer owner repo : List Char) :
    List (List Char) :=
  match tags with
  | [] => []
  | t :: rest =>
    if List.isSuffixOf (latestVer.drop 1) t || t = latestVer then
      [foundTagWarn t owner repo]
    else p1FindTagNote rest latestVer owner repo

/-- `checkNpmUpdate` of the npm variant without the archived check.
`gresp`/`grel`/`gerr` model the response, release and error of
`client.Repositories.GetLatestRelease`; `tagsRes` models the
`ListTags` call of the 404 fallback. -/
def p1Check (pkgName currentVer : List Char) (npm : Except (List Char) NpmInfo)
    (gresp : Option GhResp) (grel : Option Release) (gerr : Option (List Char))
    (tagsRes : Except (List Char) (List (List Char))) : UpdateInfo :=
  let cleanVer := cleanVerOf currentVer
  let info0 : UpdateInfo := ⟨pkgName, cleanVer, ("N/A").data, false, false, [], []⟩
  match npm with
  | .error e => { info0 with status := npmFetchErr e }
  | .ok ni =>
    let latestVer := addV ni.version
    let info1 := { info0 with latestVersion := latestVer }
    if GoSemver.compare cleanVer latestVer ≥ 0 then { info1 with status := upToDateStatus }
    else
      let info2 := { info1 with updateNeeded := true }
      let pr := parseGitHubRepoURL ni.repoURL
      let owner := pr.1
      let repo := pr.2
      let info3 :=
        if !owner.isEmpty && !repo.isEmpty then
          if rlCond gresp then
            { info2 with releaseNotes := [p1RlNote gresp owner repo] }
          else if grel.isSome && gerr.isNone then
            match grel with
            | some rel =>
              let tag := normTagAt rel.tagName
              if GoSemver.compare cleanVer tag < 0 then
                let info2a := if secMatch rel then { info2 with securityPatch := true } else info2
                { info2a with releaseNotes := info2a.releaseNotes ++ [npmDetail rel owner repo] }
              else info2
            | none => info2
          else if (match gerr with
              | some e => containsSub (("404 Not Found").data) e
              | none => false) then
            let notes1 :=
              match tagsRes with
              | .ok tags => if !tags.isEmpty then p1FindTagNote tags latestVer owner repo else []
              | .error _ => []
            let notes2 := if notes1.isEmpty then [p1NotFoundWarn owner repo (gerr.getD [])] else notes1
            { info2 with releaseNotes := notes2 }
          else
            match gerr with
            | some e => { info2 with releaseNotes := [p1RelErrWarn owner repo e] }
            | none => info2
        else { info2 with releaseNotes := [noRepoWarn ni.repoURL] }
      { info3 with
        status :=
          if info3.securityPatch then urgentStatus
          else if notesBad info3.releaseNotes then recUnavailStatus
          else recommendStatus }

/-! ## Erlang variant: the per-dependency body of `checkUpdateAndCreateReport` -/

/-- One iteration of `checkUpdateAndCreateReport`: parse the repository
URL, v-prefix the current version, reject invalid dependency details
before any comparison, otherwise compare with the fetched latest version
(`latestRes` models `findLatestVersion`). -/
def checkDep (dep : DependencyInfo) (latestRes : Except (List Char) (List Char)) :
    DependencyInfo :=
  let pr := parseGitHubURL dep.repoURL
  let owner := pr.1
  let repo := pr.2
  let currentVer := addV dep.currentVersion
  if owner.isEmpty || repo.isEmpty || !(GoSemver.isValid currentVer) then
    { dep with status := ("❌ Invalid dependency details").data }
  else
    match latestRes with
    | .error e => { dep with status := ("❌ Error: ").data ++ e }
    | .ok latestVerWithV =>
      if GoSemver.compare latestVerWithV currentVer > 0 then
        { dep with
          updateNeeded := true
          status := ("⬆️ Update Available").data
          latestVersion := goTrimPre (("v").data) latestVerWithV }
      else
        { dep with
          updateNeeded := false
          status := ("✅ Up to Date").data
          latestVersion := goTrimPre (("v").data) latestVerWithV }

/-! ## Changelog excerpt: `extractBodyFromChangelog` and the summary of `writeOutput` -/

/-- `extractBodyFromChangelog`.  The source indexes
`strings.Split(notes, "---")[2]` unconditionally; `none` models the
index-out-of-range panic when the split has at most two chunks.  The
source's `ReplaceAll(body, "**", "")` is a no-op after `ReplaceAll(body,
"*", "")` and is therefore not repeated here. -/
def extractBodyFromChangelog (notes : List Char) : Option (List Char) :=
  match (splitDashes notes).get? 2 with
  | none => none
  | some chunk =>
    let b0 := goTrimSpace chunk
    let b1 := removeChar '*' b0
    let b2 := removeChar '#' b1
    let b3 := removeChar '[' b2
    let b4 := removeChar ']' b3
    let b5 := removeChar '(' b4
    let b6 := removeChar ')' b5
    let b7 := removeChar '`' b6
    let b8 := replaceChar '\n' ' ' b7
    let b9 := replaceChar '\r' ' ' b8
    some (escapePipes (collapseSpaces b9))

/-- The changelog-summary cell of `writeOutput`: truncate the extracted
body to 80 characters, appending `"..."` when truncated. -/
def changelogSummary (notes : List Char) : Option (List Char) :=
  (extractBodyFromChangelog notes).map fun b =>
    if b.length > 80 then goTrimSpace (b.take 80) ++ ("...").data else goTrimSpace b

/-- The same character pipeline applied directly to a release body (used
to relate the formatted-notes round trip to the body it carries). -/
def excerptOfBody (body : List Char) : List Char :=
  escapePipes (collapseSpaces (replaceChar '\r' ' ' (replaceChar '\n' ' '
    (removeChar '`' (removeChar ')' (removeChar '(' (removeChar ']'
      (removeChar '[' (removeChar '#' (removeChar '*' (goTrimSpace body)))))))))))

/-- Truncation applied to the direct pipeline. -/
def summaryOfBody (body : List Char) : List Char :=
  let b := excerptOfBody body
  if b.length > 80 then goTrimSpace (b.take 80) ++ ("...").data else goTrimSpace b

/-- Collapse every maximal run of white-space characters to a single
space (used only to state the spec's description of the excerpt). -/
def collapseWsSpec : List Char → List Char
  | [] => []
  | [c] => if goIsSpace c then [' '] else [c]
  | c1 :: c2 :: rest =>
    if goIsSpace c1 then
      if goIsSpace c2 then collapseWsSpec (c2 :: rest)
      else ' ' :: collapseWsSpec (c2 :: rest)
    else c1 :: collapseWsSpec (c2 :: rest)

/-- Modelled from the spec: "strip markdown emphasis/heading/link-bracket
characters, collapse all whitespace runs (including newlines) to single
spaces, escape literal pipe characters, then truncate to a fixed maximum
length (80 characters) appending an ellipsis marker when truncated". -/
def specExcerptOfBody (body : List Char) : List Char :=
  let s1 := removeChar '`' (removeChar ')' (removeChar '(' (removeChar ']'
    (removeChar '[' (removeChar '#' (removeChar '*' body))))))
  let s2 := collapseWsSpec s1
  let s3 := escapePipes s2
  if s3.length > 80 then s3.take 80 ++ ("...").data else s3

/-! ## Specification-side definitions used to state refinement claims -/

inductive SpecCmp where
  | less
  | equal
  | greater
  | incomparable
deriving DecidableEq

/-- Following the specification's words (§4.2): `compare(a, b) ->
{LESS, EQUAL, GREATER, INCOMPARABLE}`; if either operand is invalid the
result is `INCOMPARABLE`, otherwise the sign of the semantic comparison. -/
def specCompare (a b : List Char) : SpecCmp :=
  if !GoSemver.isValid a || !GoSemver.isValid b then .incomparable
  else if GoSemver.compare a b < 0 then .less
  else if GoSemver.compare a b = 0 then .equal
  else .greater

/-! ## Path lemmas -/

theorem mainCheckUpdate_upToDate (owner repo cur : List Char) (first : Release)
    (rest : List Release) (h : 0 ≤ GoSemver.compare cur (addV first.tagName)) :
    mainCheckUpdate owner repo cur (.ok (first :: rest)) =
      ⟨owner ++ ("/").data ++ repo, cur, addV first.tagName, false, false, [],
        upToDateStatus⟩ := by
  simp only [mainCheckUpdate]
  rw [if_neg (by omega)]

theorem p1Check_upToDate (pkg cur : List Char) (ni : NpmInfo) (gresp : Option GhResp)
    (grel : Option Release) (gerr : Option (List Char))
    (tagsRes : Except (List Char) (List (List Char)))
    (h : 0 ≤ GoSemver.compare (cleanVerOf cur) (addV ni.version)) :
    p1Check pkg cur (.ok ni) gresp grel gerr tagsRes =
      ⟨pkg, cleanVerOf cur, addV ni.version, false, false, [], upToDateStatus⟩ := by
  simp only [p1Check]
  rw [if_pos (by omega)]

/-! ## Claim theorems -/

/-- C9: there exists an input to the changelog-body extraction with fewer
than two `"---"` occurrences (so the split has at most two chunks) on
which the index-2 access of `strings.Split(notes, "---")` is out of
range: the extraction is not total over arbitrary strings.  The general
part shows that every such input falls outside the function's domain. -/
theorem c9_extract_not_total :
    (∀ notes : List Char, (splitDashes notes).length ≤ 2 →
      extractBodyFromChangelog notes = none) ∧
    ((splitDashes (("no marker here").data)).length ≤ 2 ∧
      extractBodyFromChangelog (("no marker here").data) = none) := by
  constructor
  · intro notes h
    simp only [extractBodyFromChangelog]
    rw [List.get?_eq_none.mpr h]
  · exact ⟨by decide, by decide⟩

/-- C9 witness: the concrete crashing input, through the general part. -/
theorem c9_extract_not_total_witness :
    extractBodyFromChangelog (("no marker here").data) = none :=
  c9_extract_not_total.1 (("no marker here").data) (by decide)

/-- C2 counterexample: the current version `"main"` (v-prefixed to
`"vmain"`) is invalid, yet the repo-list variant compares it anyway:
`semver.Compare` returns `-1` (invalid sorts below valid, there is no
`INCOMPARABLE` result), and `checkUpdate` classifies the dependency as
needing an update instead of excluding it or reporting an
invalid-version error. -/
theorem c2_invalid_compared_cex :
    GoSemver.isValid (("vmain").data) = false ∧
    GoSemver.compare (("vmain").data) (("v1.0.0").data) = -1 ∧
    specCompare (("vmain").data) (("v1.0.0").data) = SpecCmp.incomparable ∧
    (mainCheckUpdate (("o").data) (("r").data) (("vmain").data)
      (.ok [⟨("1.0.0").data, ("n").data, ("x").data⟩])).updateNeeded = true ∧
    (mainCheckUpdate (("o").data) (("r").data) (("vmain").data)
      (.ok [⟨("1.0.0").data, ("n").data, ("x").data⟩])).status = recommendStatus := by
  refine ⟨by decide, by decide, by decide, by decide, by decide⟩

/-- C2 (amended): the comparison never crashes — the comparator is total,
two invalid operands compare equal and an invalid operand compares
strictly below any valid one (no `INCOMPARABLE` result exists).  In the
Erlang-config variant, a dependency whose v-prefixed current version is
invalid is classified `"❌ Invalid dependency details"` before any
comparison: its report does not depend on the fetched upstream version.
The repo-list and npm variants have no such guard. -/
theorem c2_invalid_version_handling :
    (∀ a b, GoSemver.isValid a = false → GoSemver.isValid b = false →
      GoSemver.compare a b = 0) ∧
    (∀ a b, GoSemver.isValid a = false → GoSemver.isValid b = true →
      GoSemver.compare a b = -1) ∧
    (∀ (dep : DependencyInfo) (res1 res2 : Except (List Char) (List Char)),
      GoSemver.isValid (addV dep.currentVersion) = false →
      checkDep dep res1 = checkDep dep res2 ∧
      (checkDep dep res1).status = ("❌ Invalid dependency details").data) := by
  refine ⟨?_, ?_, ?_⟩
  · intro a b ha hb
    cases hpa : GoSemver.parse a with
    | some p => simp [GoSemver.isValid, hpa] at ha
    | none =>
      cases hpb : GoSemver.parse b with
      | some p => simp [GoSemver.isValid, hpb] at hb
      | none => simp [GoSemver.compare, hpa, hpb]
  · intro a b ha hb
    cases hpa : GoSemver.parse a with
    | some p => simp [GoSemver.isValid, hpa] at ha
    | none =>
      cases hpb : GoSemver.parse b with
      | none => simp [GoSemver.isValid, hpb] at hb
      | some p => simp [GoSemver.compare, hpa, hpb]
  · intro dep res1 res2 h
    refine ⟨?_, ?_⟩
    · simp [checkDep, h]
    · simp [checkDep, h]

/-- C2 witness: the amended claim applied at concrete inputs. -/
theorem c2_invalid_version_handling_witness :
    GoSemver.compare (("vmain").data) (("vlatest").data) = 0 ∧
    GoSemver.compare (("vmain").data) (("v1.0.0").data) = -1 ∧
    (checkDep ⟨("dep").data, ("main").data, ("https://github.com/a/b").data, [], false, []⟩
      (.ok (("v9.9.9").data))).status = ("❌ Invalid dependency details").data := by
  refine ⟨?_, ?_, ?_⟩
  · exact c2_invalid_version_handling.1 _ _ (by decide) (by decide)
  · exact c2_invalid_version_handling.2.1 _ _ (by decide) (by decide)
  · exact (c2_invalid_version_handling.2.2 _ (.ok (("v9.9.9").data))
      (.error []) (by decide)).2

/-- C3 counterexample: a dependency whose comparison is `INCOMPARABLE` in
the specification's sense (invalid current `"main"`, valid latest
`"1.0.0"`) is not classified up to date: the npm variant marks it
update-needed, fetches the changelog and reports "Update Recommended". -/
theorem c3_incomparable_not_up_to_date_cex :
    specCompare (cleanVerOf (("main").data)) (addV (("1.0.0").data)) =
      SpecCmp.incomparable ∧
    (p1Check (("p").data) (("main").data)
      (.ok ⟨("1.0.0").data, ("https://github.com/a/b").data⟩)
      none (some ⟨("1.0.0").data, ("n").data, ("x").data⟩) none (.ok [])).updateNeeded
      = true ∧
    (p1Check (("p").data) (("main").data)
      (.ok ⟨("1.0.0").data, ("https://github.com/a/b").data⟩)
      none (some ⟨("1.0.0").data, ("n").data, ("x").data⟩) none (.ok [])).releaseNotes
      ≠ [] ∧
    (p1Check (("p").data) (("main").data)
      (.ok ⟨("1.0.0").data, ("https://github.com/a/b").data⟩)
      none (some ⟨("1.0.0").data, ("n").data, ("x").data⟩) none (.ok [])).status
      ≠ upToDateStatus := by
  refine ⟨by decide, by decide, by decide, by decide⟩

/-- C3 (amended): whenever the Go comparison of current vs latest is
`≥ 0` — latest not newer in its total order, which includes the case of
two invalid versions — evaluation terminates with the fixed up-to-date
report: status "up to date", update-needed and security-patch flags
false, empty release-notes list, and (in the npm variant) a result
independent of every GitHub-side input, so no changelog fetch is
consulted.  (When only the current version is invalid the comparison
returns `-1` and the update path is taken instead; see the
counterexample.) -/
theorem c3_up_to_date_no_fetch :
    (∀ (owner repo cur : List Char) (first : Release) (rest : List Release),
      0 ≤ GoSemver.compare cur (addV first.tagName) →
      mainCheckUpdate owner repo cur (.ok (first :: rest)) =
        ⟨owner ++ ("/").data ++ repo, cur, addV first.tagName, false, false, [],
          upToDateStatus⟩) ∧
    (∀ (pkg cur : List Char) (ni : NpmInfo) (gresp : Option GhResp)
        (grel : Option Release) (gerr : Option (List Char))
        (tagsRes : Except (List Char) (List (List Char))),
      0 ≤ GoSemver.compare (cleanVerOf cur) (addV ni.version) →
      p1Check pkg cur (.ok ni) gresp grel gerr tagsRes =
        ⟨pkg, cleanVerOf cur, addV ni.version, false, false, [], upToDateStatus⟩) :=
  ⟨mainCheckUpdate_upToDate, p1Check_upToDate⟩

/-- C3 witness: scenario 2 of the specification — current `"2.0.0"`,
upstream latest tag `"v2.0.0"` — in both variants. -/
theorem c3_up_to_date_no_fetch_witness :
    mainCheckUpdate (("o").data) (("r").data) (("v2.0.0").data)
      (.ok [⟨("v2.0.0").data, ("n").data, ("b").data⟩]) =
      ⟨("o/r").data, ("v2.0.0").data, ("v2.0.0").data, false, false, [],
        upToDateStatus⟩ ∧
    p1Check (("p").data) (("2.0.0").data)
      (.ok ⟨("2.0.0").data, ("https://github.com/a/b").data⟩)
      (some ⟨403, ("0").data, ("1").data⟩)
      (some ⟨("v9.9.9").data, ("n").data, ("security").data⟩)
      none (.ok []) =
      ⟨("p").data, ("v2.0.0").data, ("v2.0.0").data, false, false, [],
        upToDateStatus⟩ := by
  constructor
  · have h := c3_up_to_date_no_fetch.1 (("o").data) (("r").data) (("v2.0.0").data)
      ⟨("v2.0.0").data, ("n").data, ("b").data⟩ [] (by decide)
    simpa using h
  · have h := c3_up_to_date_no_fetch.2 (("p").data) (("2.0.0").data)
      ⟨("2.0.0").data, ("https://github.com/a/b").data⟩
      (some ⟨403, ("0").data, ("1").data⟩)
      (some ⟨("v9.9.9").data, ("n").data, ("security").data⟩)
      none (.ok []) (by decide)
    simpa using h

/-! ## Lemmas on `splitOnChar` (for the tag `"@"` handling and URL parsing) -/

theorem splitOnChar_ne_nil (c : Char) (s : List Char) : splitOnChar c s ≠ [] := by
  cases s with
  | nil => simp [splitOnChar]
  | cons x xs =>
    by_cases hx : x = c
    · simp [splitOnChar, hx]
    · simp only [splitOnChar, if_neg hx]
      cases splitOnChar c xs <;> simp

theorem splitOnChar_not_mem (c : Char) (s : List Char) (h : c ∉ s) :
    splitOnChar c s = [s] := by
  induction s with
  | nil => rfl
  | cons x xs ih =>
    have hx : ¬ x = c := fun he => h (by simp [he])
    have hxs : c ∉ xs := fun hm => h (by simp [hm])
    simp only [splitOnChar, if_neg hx, ih hxs]

theorem splitOnChar_append_sep (c : Char) (a b : List Char) (ha : c ∉ a) :
    splitOnChar c (a ++ c :: b) = a :: splitOnChar c b := by
  induction a with
  | nil => simp [splitOnChar]
  | cons x a' ih =>
    have hx : ¬ x = c := fun he => ha (by simp [he])
    have ha' : c ∉ a' := fun hm => ha (by simp [hm])
    rw [List.cons_append]
    simp [splitOnChar, hx, ih ha']

theorem splitOnChar_last_after (c : Char) (pre post : List Char) (h : c ∉ post) :
    (splitOnChar c (pre ++ c :: post)).getLast? = some post ∧
    (splitOnChar c (pre ++ c :: post)).length > 1 := by
  induction pre with
  | nil =>
    rw [List.nil_append]
    have hstep : splitOnChar c (c :: post) = [] :: splitOnChar c post := by
      simp [splitOnChar]
    rw [hstep, splitOnChar_not_mem c post h]
    exact ⟨rfl, by simp⟩
  | cons x pre' ih =>
    obtain ⟨ih1, ih2⟩ := ih
    rcases hs : splitOnChar c (pre' ++ c :: post) with _ | ⟨h0, t0⟩
    · exact absurd hs (splitOnChar_ne_nil c _)
    rw [hs] at ih1 ih2
    by_cases hx : x = c
    · subst hx
      have hstep : splitOnChar x ((x :: pre') ++ x :: post) =
          [] :: h0 :: t0 := by
        rw [List.cons_append]
        simp [splitOnChar, hs]
      rw [hstep]
      exact ⟨by rw [List.getLast?_cons_cons]; exact ih1, by simp⟩
    · rcases t0 with _ | ⟨t1, t2⟩
      · simp at ih2
      · have hstep : splitOnChar c ((x :: pre') ++ c :: post) =
            (x :: h0) :: t1 :: t2 := by
          rw [List.cons_append]
          simp [splitOnChar, hx, hs]
        rw [hstep]
        constructor
        · rw [List.getLast?_cons_cons]
          rw [List.getLast?_cons_cons] at ih1
          exact ih1
        · simp

/-- For nonempty lists `getLastD` does not depend on the default. -/
theorem getLastD_ne_nil {α : Type} (l : List α) (hl : l ≠ []) (a b : α) :
    List.getLastD l a = List.getLastD l b := by
  cases l with
  | nil => exact absurd rfl hl
  | cons x xs => rw [List.getLastD_cons, List.getLastD_cons]

/-- `getLastD` recovers the value of `getLast?`. -/
theorem getLastD_of_getLast? {α : Type} (l : List α) (v d : α)
    (h : l.getLast? = some v) : l.getLastD d = v := by
  induction l generalizing d with
  | nil => simp at h
  | cons x xs ih =>
    cases xs with
    | nil =>
      simp only [List.getLast?_singleton, Option.some_inj] at h
      simp [List.getLastD_cons, h]
    | cons y ys =>
      rw [List.getLastD_cons]
      rw [List.getLast?_cons_cons] at h
      exact ih _ h

/-! ## C10: monorepo-style `@` tags -/

/-- C10: in the npm-style variants, a release tag containing `"@"` is
reduced to the substring after the last `"@"`, v-prefixed, before the
semantic-version comparison: for any prefix and any `@`-free remainder,
the normalised tag is the v-prefixed remainder, so the part before the
`"@"` never influences the comparison; a tag without `"@"` is only
v-prefixed.  The last conjunct shows the security-flag computation of the
latest-release branch literally compares the current version against
`normTagAt` of the tag. -/
theorem c10_at_tag_normalisation :
    (∀ pre post : List Char, '@' ∉ post →
      normTagAt (pre ++ '@' :: post) = addV post) ∧
    (∀ tag : List Char, '@' ∉ tag → normTagAt tag = addV tag) := by
  constructor
  · intro pre post h
    obtain ⟨h1, h2⟩ := splitOnChar_last_after '@' pre post h
    simp only [normTagAt, if_pos h2]
    rw [getLastD_of_getLast? _ _ _ h1]
  · intro tag h
    simp [normTagAt, splitOnChar_not_mem '@' tag h]

/-- C10 witness: the monorepo tag `"pkg@1.2.3"` (and the plain tag
`"1.2.3"`). -/
theorem c10_at_tag_normalisation_witness :
    normTagAt (("pkg@1.2.3").data) = addV (("1.2.3").data) ∧
    normTagAt (("1.2.3").data) = addV (("1.2.3").data) :=
  ⟨c10_at_tag_normalisation.1 (("pkg").data) (("1.2.3").data) (by decide),
   c10_at_tag_normalisation.2 (("1.2.3").data) (by decide)⟩

/-! ## Lemmas on trimming (for version normalisation) -/

theorem dropRightBy_head (p : Char → Bool) (l : List Char) (d : Char)
    (h : dropRightBy p l ≠ []) : (dropRightBy p l).headD d = l.headD d := by
  cases l with
  | nil => simp [dropRightBy] at h
  | cons x xs =>
    rcases hr : dropRightBy p xs with _ | ⟨r, rs⟩
    · by_cases hp : p x
      · exact absurd (show dropRightBy p (x :: xs) = [] by
          simp [dropRightBy, hr, hp]) h
      · rw [show dropRightBy p (x :: xs) = [x] by simp [dropRightBy, hr, hp]]
        rfl
    · rw [show dropRightBy p (x :: xs) = x :: r :: rs by simp [dropRightBy, hr]]
      rfl

theorem dropRightBy_getLast (p : Char → Bool) (l : List Char) (d : Char)
    (h : dropRightBy p l ≠ []) : p ((dropRightBy p l).getLastD d) = false := by
  induction l generalizing d with
  | nil => simp [dropRightBy] at h
  | cons x xs ih =>
    rcases hr : dropRightBy p xs with _ | ⟨r, rs⟩
    · by_cases hp : p x
      · exact absurd (show dropRightBy p (x :: xs) = [] by
          simp [dropRightBy, hr, hp]) h
      · rw [show dropRightBy p (x :: xs) = [x] by simp [dropRightBy, hr, hp]]
        simpa using Bool.eq_false_iff.mpr hp
    · rw [show dropRightBy p (x :: xs) = x :: r :: rs by simp [dropRightBy, hr]]
      rw [List.getLastD_cons]
      have hne : dropRightBy p xs ≠ [] := by rw [hr]; simp
      have hx := ih x hne
      rw [hr] at hx
      exact hx

theorem dropWhile_head_not (p : Char → Bool) (l : List Char) (d : Char)
    (h : l.dropWhile p ≠ []) : p ((l.dropWhile p).headD d) = false := by
  induction l with
  | nil => simp at h
  | cons x xs ih =>
    by_cases hp : p x
    · rw [List.dropWhile_cons, if_pos hp] at h ⊢
      exact ih h
    · rw [List.dropWhile_cons, if_neg hp] at h ⊢
      simpa using Bool.eq_false_iff.mpr hp

/-! ## C8: version normalisation of the npm variants -/

/-- C8 counterexample: the comparator character `"<"` is not in the trim
cut set `"^~=>"` of the source, so the raw version `"<1.2.3"` keeps its
leading `"<"` in the normalised version, contradicting the claim that
each of `^ ~ = < >` is stripped from the front. -/
theorem c8_lt_not_stripped_cex :
    cleanVerOf (("<1.2.3").data) = ("v<1.2.3").data ∧
    '<' ∈ cleanVerOf (("<1.2.3").data) ∧
    GoSemver.isValid (cleanVerOf (("<1.2.3").data)) = false := by
  refine ⟨by decide, by decide, by decide⟩

/-- C8 (amended): normalisation trims the characters `^ ~ = >` (not `<`)
from both ends of the raw version and prefixes `"v"` when the trimmed
string does not already start with one: the normalised version always
starts with `"v"`, and the trimmed core neither starts nor ends with one
of `^ ~ = >`. -/
theorem c8_normalisation :
    (∀ raw : List Char, hasPre (("v").data) (cleanVerOf raw) = true) ∧
    (∀ raw : List Char, goTrimFunc rangeCut raw ≠ [] →
      rangeCut ((goTrimFunc rangeCut raw).headD ' ') = false ∧
      rangeCut ((goTrimFunc rangeCut raw).getLastD ' ') = false) ∧
    (∀ raw : List Char, cleanVerOf raw = addV (goTrimFunc rangeCut raw)) := by
  refine ⟨?_, ?_, fun _ => rfl⟩
  · intro raw
    unfold cleanVerOf addV
    by_cases h : hasPre (("v").data) (goTrimFunc rangeCut raw) = true
    · rw [if_pos h]
      exact h
    · rw [if_neg h]
      simp [hasPre, List.isPrefixOf]
  · intro raw h
    unfold goTrimFunc at h ⊢
    constructor
    · rw [dropRightBy_head rangeCut _ ' ' h]
      apply dropWhile_head_not
      intro hnil
      rw [hnil] at h
      simp [dropRightBy] at h
    · exact dropRightBy_getLast rangeCut _ ' ' h

/-- C8 witness: the amended claim at `"^1.2.3"`. -/
theorem c8_normalisation_witness :
    hasPre (("v").data) (cleanVerOf (("^1.2.3").data)) = true ∧
    rangeCut ((goTrimFunc rangeCut (("^1.2.3").data)).headD ' ') = false ∧
    cleanVerOf (("^1.2.3").data) = addV (goTrimFunc rangeCut (("^1.2.3").data)) :=
  ⟨c8_normalisation.1 (("^1.2.3").data),
   (c8_normalisation.2.1 (("^1.2.3").data) (by decide)).1,
   c8_normalisation.2.2 (("^1.2.3").data)⟩

/-! ## C5: rate-limit handling -/

/-- C5 counterexample: for a rate-limited response whose
`X-RateLimit-Reset` header carries the epoch `1704067200` — the instant
`2024-01-01T00:00:00Z` — the report message renders the reset time
through `time.RFC1123` (`"Mon, 01 Jan 2024 00:00:00 UTC"`); the
timestamp `2024-01-01T00:00:00Z` does not appear verbatim anywhere in
the stored note. -/
theorem c5_reset_not_verbatim_cex :
    (p1Check (("p").data) (("1.0.0").data)
      (.ok ⟨("2.0.0").data, ("https://github.com/acme/widget").data⟩)
      (some ⟨403, ("0").data, ("1704067200").data⟩) none (some ("e").data)
      (.ok [])).releaseNotes =
      [rlExceededMsg (("Mon, 01 Jan 2024 00:00:00 UTC").data)
        (("acme").data) (("widget").data)] ∧
    containsSub (("2024-01-01T00:00:00Z").data)
      ((p1Check (("p").data) (("1.0.0").data)
        (.ok ⟨("2.0.0").data, ("https://github.com/acme/widget").data⟩)
        (some ⟨403, ("0").data, ("1704067200").data⟩) none (some ("e").data)
        (.ok [])).releaseNotes.headD []) = false := by
  refine ⟨by decide, by decide⟩

/-- C5 (amended): an HTTP 403 with a zero remaining-quota signal is
distinguished from a generic failure — the note starts with
`"❌ GitHub Rate Limit Exceeded"` and not with the `"Warning:"` marker of
the generic failure paths; the error is captured as data on the report
(the evaluation returns a report, status "Update Recommended (Changelog
unavailable)") rather than raised; the result ignores every other
GitHub-side input, so no retry is consulted; and the reset epoch parsed
from the header is surfaced reformatted through RFC1123 — not verbatim. -/
theorem c5_rate_limit_handling
    (pkg cur : List Char) (ni : NpmInfo) (resp : GhResp)
    (gerr : Option (List Char)) (tagsRes : Except (List Char) (List (List Char)))
    (n : Int)
    (hlt : GoSemver.compare (cleanVerOf cur) (addV ni.version) < 0)
    (ho : (parseGitHubRepoURL ni.repoURL).1.isEmpty = false)
    (hr : (parseGitHubRepoURL ni.repoURL).2.isEmpty = false)
    (hst : resp.statusCode = 403)
    (hrem : containsSub (("0").data) resp.rlRemaining = true)
    (hn : goParseInt64 resp.rlReset = some n) :
    (p1Check pkg cur (.ok ni) (some resp) none gerr tagsRes).releaseNotes =
      [rlExceededMsg (rfc1123 n) (parseGitHubRepoURL ni.repoURL).1
        (parseGitHubRepoURL ni.repoURL).2] ∧
    (p1Check pkg cur (.ok ni) (some resp) none gerr tagsRes).status =
      recUnavailStatus ∧
    (p1Check pkg cur (.ok ni) (some resp) none gerr tagsRes).securityPatch = false ∧
    hasPre (("❌ GitHub Rate Limit Exceeded").data)
      (rlExceededMsg (rfc1123 n) (parseGitHubRepoURL ni.repoURL).1
        (parseGitHubRepoURL ni.repoURL).2) = true ∧
    hasPre (("Warning:").data)
      (rlExceededMsg (rfc1123 n) (parseGitHubRepoURL ni.repoURL).1
        (parseGitHubRepoURL ni.repoURL).2) = false := by
  have hrl : rlCond (some resp) = true := by
    simp [rlCond, hst, hrem]
  have hnote : p1RlNote (some resp) (parseGitHubRepoURL ni.repoURL).1
      (parseGitHubRepoURL ni.repoURL).2 =
      rlExceededMsg (rfc1123 n) (parseGitHubRepoURL ni.repoURL).1
        (parseGitHubRepoURL ni.repoURL).2 := by
    simp [p1RlNote, hn]
  refine ⟨?_, ?_, ?_, ?_, ?_⟩
  · simp only [p1Check]
    rw [if_neg (by omega)]
    simp [ho, hr, hrl, hnote]
  · simp only [p1Check]
    rw [if_neg (by omega)]
    simp [ho, hr, hrl, hnote, notesBad, rlExceededMsg, hasPre, List.isPrefixOf]
  · simp only [p1Check]
    rw [if_neg (by omega)]
    simp [ho, hr, hrl, hnote]
  · simp [rlExceededMsg, hasPre, List.isPrefixOf]
  · simp [rlExceededMsg, hasPre, List.isPrefixOf]

/-- C5 witness: scenario 3 of the specification, reset time
`2024-01-01T00:00:00Z` (epoch `1704067200`). -/
theorem c5_rate_limit_handling_witness :
    (p1Check (("p").data) (("1.0.0").data)
      (.ok ⟨("2.0.0").data, ("https://github.com/acme/widget").data⟩)
      (some ⟨403, ("0").data, ("1704067200").data⟩) none none (.ok [])).status =
      recUnavailStatus :=
  (c5_rate_limit_handling (("p").data) (("1.0.0").data)
    ⟨("2.0.0").data, ("https://github.com/acme/widget").data⟩
    ⟨403, ("0").data, ("1704067200").data⟩ none (.ok []) 1704067200
    (by decide) (by decide) (by decide) (by decide) (by decide) (by decide)).2.1

/-! ## Lemmas on the frontend release scan -/

theorem fScanAux_isArchived (cv o r : List Char) (rels : List Release)
    (info : UpdateInfoF) (found : Bool) :
    (fScanAux cv o r rels info found).1.isArchived = info.isArchived := by
  induction rels generalizing info found with
  | nil => rfl
  | cons rel rest ih =>
    simp only [fScanAux]
    by_cases hc : GoSemver.compare (normTagAt rel.tagName) cv ≤ 0
    · rw [if_pos hc]
    · rw [if_neg hc]
      by_cases hm : secMatch rel <;> by_cases hf : found <;> simp [hm, hf, ih]

theorem fScanAux_updateNeeded (cv o r : List Char) (rels : List Release)
    (info : UpdateInfoF) (found : Bool) :
    (fScanAux cv o r rels info found).1.updateNeeded = info.updateNeeded := by
  induction rels generalizing info found with
  | nil => rfl
  | cons rel rest ih =>
    simp only [fScanAux]
    by_cases hc : GoSemver.compare (normTagAt rel.tagName) cv ≤ 0
    · rw [if_pos hc]
    · rw [if_neg hc]
      by_cases hm : secMatch rel <;> by_cases hf : found <;> simp [hm, hf, ih]


theorem fNotesStage_isArchived (cv o r lv : List Char) (lresp : Option GhResp)
    (lerr : Option (List Char)) (releases : List Release) (info2 : UpdateInfoF) :
    (fNotesStage cv o r lv lresp lerr releases info2).isArchived = info2.isArchived := by
  simp only [fNotesStage]
  repeat' split
  all_goals simp [fScanAux_isArchived]

theorem fNotesStage_updateNeeded (cv o r lv : List Char) (lresp : Option GhResp)
    (lerr : Option (List Char)) (releases : List Release) (info2 : UpdateInfoF) :
    (fNotesStage cv o r lv lresp lerr releases info2).updateNeeded = info2.updateNeeded := by
  simp only [fNotesStage]
  repeat' split
  all_goals simp [fScanAux_updateNeeded]

/-- The final status assignment as a function of the fields it reads. -/
def finalStatusOf (ar sp un : Bool) (ns : List (List Char)) : List Char :=
  if ar then (if un then deprecatedUpdateStatus else deprecatedUpToDateStatus)
  else if sp then urgentStatus
  else if !un then upToDateStatus
  else if notesBad ns then recUnavailStatus
  else recommendStatus

theorem fFinalStatus_eq (i : UpdateInfoF) :
    fFinalStatus i = finalStatusOf i.isArchived i.securityPatch i.updateNeeded i.releaseNotes := rfl

/-- Shape of a frontend evaluation with a successful npm fetch and a
resolvable repository URL: the archived flag comes from the repository
query, the update flag from the version comparison, and the status is
the archived early-return label when archived-and-current, otherwise the
final-status assignment applied to the report's own fields. -/
theorem frontendCheck_master (pkg cur : List Char) (ni : NpmInfo)
    (repoRes : Except (List Char) Bool) (lresp : Option GhResp)
    (lerr : Option (List Char)) (releases : List Release)
    (ho : (parseGitHubRepoURL ni.repoURL).1.isEmpty = false)
    (hr : (parseGitHubRepoURL ni.repoURL).2.isEmpty = false) :
    (frontendCheck pkg cur (.ok ni) repoRes lresp lerr releases).isArchived =
      (match repoRes with | .ok b => b | .error _ => false) ∧
    (frontendCheck pkg cur (.ok ni) repoRes lresp lerr releases).updateNeeded =
      decide (GoSemver.compare (cleanVerOf cur) (addV ni.version) < 0) ∧
    (frontendCheck pkg cur (.ok ni) repoRes lresp lerr releases).status =
      (if (match repoRes with | .ok b => b | .error _ => false) &&
          !decide (GoSemver.compare (cleanVerOf cur) (addV ni.version) < 0) then
        deprecatedArchivedStatus
      else
        finalStatusOf
          (frontendCheck pkg cur (.ok ni) repoRes lresp lerr releases).isArchived
          (frontendCheck pkg cur (.ok ni) repoRes lresp lerr releases).securityPatch
          (frontendCheck pkg cur (.ok ni) repoRes lresp lerr releases).updateNeeded
          (frontendCheck pkg cur (.ok ni) repoRes lresp lerr releases).releaseNotes) := by
  have harch : ∀ b : Bool, (match repoRes with | .ok c => c | .error _ => false) = b →
      (frontendCheck pkg cur (.ok ni) repoRes lresp lerr releases).isArchived = b ∧
      (frontendCheck pkg cur (.ok ni) repoRes lresp lerr releases).updateNeeded =
        decide (GoSemver.compare (cleanVerOf cur) (addV ni.version) < 0) ∧
      (frontendCheck pkg cur (.ok ni) repoRes lresp lerr releases).status =
        (if b && !decide (GoSemver.compare (cleanVerOf cur) (addV ni.version) < 0) then
          deprecatedArchivedStatus
        else
          finalStatusOf
            (frontendCheck pkg cur (.ok ni) repoRes lresp lerr releases).isArchived
            (frontendCheck pkg cur (.ok ni) repoRes lresp lerr releases).securityPatch
            (frontendCheck pkg cur (.ok ni) repoRes lresp lerr releases).updateNeeded
            (frontendCheck pkg cur (.ok ni) repoRes lresp lerr releases).releaseNotes) := by
    intro b hb
    by_cases hc : GoSemver.compare (cleanVerOf cur) (addV ni.version) < 0 <;>
      cases b <;>
      · simp only [frontendCheck]
        rw [if_neg (by simp [ho, hr])]
        simp [hb, hc, fFinalStatus_eq, fNotesStage_isArchived, fNotesStage_updateNeeded]
  exact harch _ rfl

/-! ## C4: final status precedence -/

/-- C4 counterexample: a dependency that is pinned to the npm latest
version (up to date) but whose repository URL yields no owner/repo is
reported `"🔄 Update Recommended (Repo link missing)"` instead of the
up-to-date status required by the claimed precedence (up-to-date ranks
above the source-unresolvable error state). -/
theorem c4_precedence_cex :
    (frontendCheck (("p").data) (("1.0.0").data) (.ok ⟨("1.0.0").data, []⟩)
      (.ok false) none none []).updateNeeded = false ∧
    (frontendCheck (("p").data) (("1.0.0").data) (.ok ⟨("1.0.0").data, []⟩)
      (.ok false) none none []).securityPatch = false ∧
    (frontendCheck (("p").data) (("1.0.0").data) (.ok ⟨("1.0.0").data, []⟩)
      (.ok false) none none []).isArchived = false ∧
    (frontendCheck (("p").data) (("1.0.0").data) (.ok ⟨("1.0.0").data, []⟩)
      (.ok false) none none []).status = repoMissingStatus ∧
    repoMissingStatus ≠ upToDateStatus := by
  refine ⟨by decide, by decide, by decide, by decide, by decide⟩

/-- C4 (amended): when the npm fetch succeeds and the repository URL
resolves to a nonempty owner and repo, the frontend variant assigns the
final status by the precedence deprecated-with-update-needed >
deprecated-up-to-date (labelled `"⛔️ DEPRECATED (Archived)"` by the
archived early return) > security-urgent >
update-recommended-changelog-unavailable / update-recommended >
up-to-date; an archived upstream is reported deprecated even when pinned
to the latest version, and a detected security patch is never reported
as plain "update recommended".  (When the URL does not resolve, the
status is "Update Recommended (Repo link missing)" even for an
up-to-date dependency — see the counterexample; an npm fetch failure
reports the fetch error.) -/
theorem c4_status_precedence (pkg cur : List Char) (ni : NpmInfo)
    (repoRes : Except (List Char) Bool) (lresp : Option GhResp)
    (lerr : Option (List Char)) (releases : List Release)
    (ho : (parseGitHubRepoURL ni.repoURL).1.isEmpty = false)
    (hr : (parseGitHubRepoURL ni.repoURL).2.isEmpty = false) :
    ((frontendCheck pkg cur (.ok ni) repoRes lresp lerr releases).isArchived = true →
      (frontendCheck pkg cur (.ok ni) repoRes lresp lerr releases).updateNeeded = true →
      (frontendCheck pkg cur (.ok ni) repoRes lresp lerr releases).status =
        deprecatedUpdateStatus) ∧
    ((frontendCheck pkg cur (.ok ni) repoRes lresp lerr releases).isArchived = true →
      (frontendCheck pkg cur (.ok ni) repoRes lresp lerr releases).updateNeeded = false →
      (frontendCheck pkg cur (.ok ni) repoRes lresp lerr releases).status =
        deprecatedArchivedStatus) ∧
    ((frontendCheck pkg cur (.ok ni) repoRes lresp lerr releases).isArchived = false →
      (frontendCheck pkg cur (.ok ni) repoRes lresp lerr releases).securityPatch = true →
      (frontendCheck pkg cur (.ok ni) repoRes lresp lerr releases).status =
        urgentStatus) ∧
    ((frontendCheck pkg cur (.ok ni) repoRes lresp lerr releases).isArchived = false →
      (frontendCheck pkg cur (.ok ni) repoRes lresp lerr releases).securityPatch = false →
      (frontendCheck pkg cur (.ok ni) repoRes lresp lerr releases).updateNeeded = false →
      (frontendCheck pkg cur (.ok ni) repoRes lresp lerr releases).status =
        upToDateStatus) ∧
    ((frontendCheck pkg cur (.ok ni) repoRes lresp lerr releases).isArchived = false →
      (frontendCheck pkg cur (.ok ni) repoRes lresp lerr releases).securityPatch = false →
      (frontendCheck pkg cur (.ok ni) repoRes lresp lerr releases).updateNeeded = true →
      (frontendCheck pkg cur (.ok ni) repoRes lresp lerr releases).status =
        recUnavailStatus ∨
      (frontendCheck pkg cur (.ok ni) repoRes lresp lerr releases).status =
        recommendStatus) := by
  obtain ⟨h1, h2, h3⟩ := frontendCheck_master pkg cur ni repoRes lresp lerr releases ho hr
  refine ⟨?_, ?_, ?_, ?_, ?_⟩
  · intro ha hu
    rw [h3, ← h1, ← h2, ha, hu]
    simp [finalStatusOf, ha, hu]
  · intro ha hu
    rw [h3, ← h1, ← h2, ha, hu]
    simp
  · intro ha hs
    rw [h3, ← h1, ha]
    simp [finalStatusOf, ha, hs]
  · intro ha hs hu
    rw [h3, ← h1, ha]
    simp [finalStatusOf, ha, hs, hu]
  · intro ha hs hu
    rw [h3, ← h1, ha]
    by_cases hnb : notesBad (frontendCheck pkg cur (.ok ni) repoRes lresp lerr
        releases).releaseNotes
    · left
      simp [finalStatusOf, ha, hs, hu, hnb]
    · right
      simp [finalStatusOf, ha, hs, hu, hnb]

/-- C4 witness: a security release behind an archived upstream stays
deprecated, and a plain security release is urgent. -/
theorem c4_status_precedence_witness :
    (frontendCheck (("p").data) (("1.0.0").data)
      (.ok ⟨("2.0.0").data, ("https://github.com/a/b").data⟩)
      (.ok true) none none
      [⟨("v2.0.0").data, ("n").data, ("security fix").data⟩]).status =
      deprecatedUpdateStatus ∧
    (frontendCheck (("p").data) (("1.0.0").data)
      (.ok ⟨("2.0.0").data, ("https://github.com/a/b").data⟩)
      (.ok false) none none
      [⟨("v2.0.0").data, ("n").data, ("security fix").data⟩]).status =
      urgentStatus := by
  constructor
  · exact (c4_status_precedence (("p").data) (("1.0.0").data)
      ⟨("2.0.0").data, ("https://github.com/a/b").data⟩
      (.ok true) none none [⟨("v2.0.0").data, ("n").data, ("security fix").data⟩]
      (by decide) (by decide)).1 (by decide) (by decide)
  · exact (c4_status_precedence (("p").data) (("1.0.0").data)
      ⟨("2.0.0").data, ("https://github.com/a/b").data⟩
      (.ok false) none none [⟨("v2.0.0").data, ("n").data, ("security fix").data⟩]
      (by decide) (by decide)).2.2.1 (by decide) (by decide)

/-! ## Flag characterisations for the security scans -/

theorem mainStep_flag (cur : List Char) (acc : UpdateInfo) (r : Release) :
    (mainStep cur acc r).securityPatch =
      (acc.securityPatch ||
        (decide (GoSemver.compare cur (addV r.tagName) < 0) && secMatch r)) := by
  simp only [mainStep]
  by_cases hc : GoSemver.compare cur (addV r.tagName) < 0 <;>
    by_cases hm : secMatch r <;> simp [hc, hm]

theorem mainFold_flag (cur : List Char) (rels : List Release) (acc : UpdateInfo) :
    (rels.foldl (mainStep cur) acc).securityPatch =
      (acc.securityPatch ||
        rels.any (fun r => decide (GoSemver.compare cur (addV r.tagName) < 0) &&
          secMatch r)) := by
  induction rels generalizing acc with
  | nil => simp
  | cons r rest ih =>
    simp only [List.foldl_cons, List.any_cons]
    rw [ih, mainStep_flag]
    simp [Bool.or_assoc]

theorem mainCheckUpdate_flag (owner repo cur : List Char) (first : Release)
    (rest : List Release) (h : GoSemver.compare cur (addV first.tagName) < 0) :
    (mainCheckUpdate owner repo cur (.ok (first :: rest))).securityPatch =
      (first :: rest).any
        (fun r => decide (GoSemver.compare cur (addV r.tagName) < 0) && secMatch r) := by
  simp only [mainCheckUpdate]
  rw [if_pos h]
  simp [mainFold_flag]
  rw [mainStep_flag]
  simp

theorem fScanAux_flag (cv o r : List Char) (rels : List Release)
    (info : UpdateInfoF) (found : Bool) :
    (fScanAux cv o r rels info found).1.securityPatch =
      (info.securityPatch ||
        (rels.takeWhile
          (fun rl => decide (0 < GoSemver.compare (normTagAt rl.tagName) cv))).any
          secMatch) := by
  induction rels generalizing info found with
  | nil => simp [fScanAux]
  | cons rel rest ih =>
    simp only [fScanAux, List.takeWhile_cons]
    by_cases hc : GoSemver.compare (normTagAt rel.tagName) cv ≤ 0
    · rw [if_pos hc]
      have hd : decide (0 < GoSemver.compare (normTagAt rel.tagName) cv) = false := by
        simp
        omega
      simp [hd]
    · rw [if_neg hc]
      have hd : decide (0 < GoSemver.compare (normTagAt rel.tagName) cv) = true := by
        simp
        omega
      by_cases hm : secMatch rel <;> by_cases hf : found <;>
        simp [hm, hf, ih, hd, Bool.or_assoc]

theorem fNotesStage_flag (cv o r lv : List Char) (lresp : Option GhResp)
    (releases : List Release) (info2 : UpdateInfoF) (hrl : rlCond lresp = false) :
    (fNotesStage cv o r lv lresp none releases info2).securityPatch =
      (info2.securityPatch ||
        (releases.takeWhile
          (fun rl => decide (0 < GoSemver.compare (normTagAt rl.tagName) cv))).any
          secMatch) := by
  simp only [fNotesStage, hrl, Bool.false_eq_true, if_false]
  rcases hs : fScanAux cv o r releases info2 false with ⟨i4, fnd⟩
  have hflag := fScanAux_flag cv o r releases info2 false
  rw [hs] at hflag
  cases fnd <;> simpa using hflag

theorem frontendCheck_flag (pkg cur : List Char) (ni : NpmInfo)
    (repoRes : Except (List Char) Bool) (lresp : Option GhResp)
    (releases : List Release)
    (ho : (parseGitHubRepoURL ni.repoURL).1.isEmpty = false)
    (hr : (parseGitHubRepoURL ni.repoURL).2.isEmpty = false)
    (hc : GoSemver.compare (cleanVerOf cur) (addV ni.version) < 0)
    (hrl : rlCond lresp = false) :
    (frontendCheck pkg cur (.ok ni) repoRes lresp none releases).securityPatch =
      (releases.takeWhile
        (fun rl =>
          decide (0 < GoSemver.compare (normTagAt rl.tagName) (cleanVerOf cur)))).any
        secMatch := by
  rcases repoRes with e | b
  · simp only [frontendCheck]
    rw [if_neg (by simp [ho, hr])]
    simp [hc, fNotesStage_flag, hrl]
  · cases b <;>
      · simp only [frontendCheck]
        rw [if_neg (by simp [ho, hr])]
        simp [hc, fNotesStage_flag, hrl]

theorem p1Check_release_flag (pkg cur : List Char) (ni : NpmInfo)
    (gresp : Option GhResp) (rel : Release)
    (tagsRes : Except (List Char) (List (List Char)))
    (hlt : GoSemver.compare (cleanVerOf cur) (addV ni.version) < 0)
    (ho : (parseGitHubRepoURL ni.repoURL).1.isEmpty = false)
    (hr : (parseGitHubRepoURL ni.repoURL).2.isEmpty = false)
    (hrl : rlCond gresp = false) :
    (p1Check pkg cur (.ok ni) gresp (some rel) none tagsRes).securityPatch =
      (decide (GoSemver.compare (cleanVerOf cur) (normTagAt rel.tagName) < 0) &&
        secMatch rel) := by
  simp only [p1Check]
  rw [if_neg (by omega)]
  by_cases hc2 : GoSemver.compare (cleanVerOf cur) (normTagAt rel.tagName) < 0 <;>
    by_cases hm : secMatch rel <;> simp [ho, hr, hrl, hc2, hm]

/-! ## C1: security keyword scan over newer releases -/

/-- C1 counterexample: with the fetched releases not in newest-first
order — first `"1.0.0"`, then `"2.0.0"` with a security body — and
current version `"v1.5.0"`, the repo-list variant returns early ("Up to
date", first release not newer) and leaves the security flag false, even
though the list contains a strictly newer release matching the
`"security"` keyword. -/
theorem c1_scan_skipped_cex :
    ((⟨("2.0.0").data, ("b").data, ("security fix").data⟩ : Release) ∈
      [(⟨("1.0.0").data, ("a").data, ("x").data⟩ : Release),
       ⟨("2.0.0").data, ("b").data, ("security fix").data⟩]) ∧
    GoSemver.compare (("v1.5.0").data)
      (addV (("2.0.0").data)) < 0 ∧
    secMatch ⟨("2.0.0").data, ("b").data, ("security fix").data⟩ = true ∧
    (mainCheckUpdate (("o").data) (("r").data) (("v1.5.0").data)
      (.ok [⟨("1.0.0").data, ("a").data, ("x").data⟩,
            ⟨("2.0.0").data, ("b").data, ("security fix").data⟩])).securityPatch
      = false ∧
    (mainCheckUpdate (("o").data) (("r").data) (("v1.5.0").data)
      (.ok [⟨("1.0.0").data, ("a").data, ("x").data⟩,
            ⟨("2.0.0").data, ("b").data, ("security fix").data⟩])).status
      = upToDateStatus := by
  refine ⟨by decide, by decide, by decide, by decide, by decide⟩

/-- C1 (amended): security detection is the case-insensitive substring
match of the four keywords over the concatenation of release body and
title.  In the repo-list variant, provided the first fetched release is
strictly newer than the current version (as with GitHub's newest-first
ordering), the flag is true iff some fetched release strictly newer than
the current version matches; without that proviso the evaluation returns
early (see the counterexample).  In the frontend variant the scan stops
at the first release not strictly newer, so the flag is true iff some
release in the longest all-strictly-newer leading segment matches.  In
the remaining npm variant only the single release fetched by the
latest-release endpoint is examined: the flag is true iff that release is
strictly newer and matches. -/
theorem c1_security_scan :
    (∀ (owner repo cur : List Char) (first : Release) (rest : List Release),
      GoSemver.compare cur (addV first.tagName) < 0 →
      (mainCheckUpdate owner repo cur (.ok (first :: rest))).securityPatch =
        (first :: rest).any
          (fun r => decide (GoSemver.compare cur (addV r.tagName) < 0) &&
            secMatch r)) ∧
    (∀ (pkg cur : List Char) (ni : NpmInfo) (repoRes : Except (List Char) Bool)
        (lresp : Option GhResp) (releases : List Release),
      (parseGitHubRepoURL ni.repoURL).1.isEmpty = false →
      (parseGitHubRepoURL ni.repoURL).2.isEmpty = false →
      GoSemver.compare (cleanVerOf cur) (addV ni.version) < 0 →
      rlCond lresp = false →
      (frontendCheck pkg cur (.ok ni) repoRes lresp none releases).securityPatch =
        (releases.takeWhile
          (fun rl =>
            decide (0 < GoSemver.compare (normTagAt rl.tagName) (cleanVerOf cur)))).any
          secMatch) ∧
    (∀ (pkg cur : List Char) (ni : NpmInfo) (gresp : Option GhResp) (rel : Release)
        (tagsRes : Except (List Char) (List (List Char))),
      GoSemver.compare (cleanVerOf cur) (addV ni.version) < 0 →
      (parseGitHubRepoURL ni.repoURL).1.isEmpty = false →
      (parseGitHubRepoURL ni.repoURL).2.isEmpty = false →
      rlCond gresp = false →
      (p1Check pkg cur (.ok ni) gresp (some rel) none tagsRes).securityPatch =
        (decide (GoSemver.compare (cleanVerOf cur) (normTagAt rel.tagName) < 0) &&
          secMatch rel)) :=
  ⟨mainCheckUpdate_flag,
   fun pkg cur ni repoRes lresp releases ho hr hc hrl =>
     frontendCheck_flag pkg cur ni repoRes lresp releases ho hr hc hrl,
   fun pkg cur ni gresp rel tagsRes hlt ho hr hrl =>
     p1Check_release_flag pkg cur ni gresp rel tagsRes hlt ho hr hrl⟩

/-- C1 witness: scenario 1 of the specification — current `"1.2.0"`,
latest release `"v1.3.0"` with body "Fixes a vulnerability in parsing" —
in all three variants. -/
theorem c1_security_scan_witness :
    (mainCheckUpdate (("o").data) (("r").data) (("v1.2.0").data)
      (.ok [⟨("v1.3.0").data, ("rel").data,
        ("Fixes a vulnerability in parsing").data⟩])).securityPatch = true ∧
    (frontendCheck (("p").data) (("1.2.0").data)
      (.ok ⟨("1.3.0").data, ("https://github.com/a/b").data⟩)
      (.ok false) none none
      [⟨("v1.3.0").data, ("rel").data,
        ("Fixes a vulnerability in parsing").data⟩]).securityPatch = true ∧
    (p1Check (("p").data) (("1.2.0").data)
      (.ok ⟨("1.3.0").data, ("https://github.com/a/b").data⟩)
      none (some ⟨("v1.3.0").data, ("rel").data,
        ("Fixes a vulnerability in parsing").data⟩) none (.ok [])).securityPatch
      = true := by
  refine ⟨?_, ?_, ?_⟩
  · rw [c1_security_scan.1 (("o").data) (("r").data) (("v1.2.0").data)
      ⟨("v1.3.0").data, ("rel").data, ("Fixes a vulnerability in parsing").data⟩
      [] (by decide)]
    decide
  · rw [c1_security_scan.2.1 (("p").data) (("1.2.0").data)
      ⟨("1.3.0").data, ("https://github.com/a/b").data⟩ (.ok false) none
      [⟨("v1.3.0").data, ("rel").data, ("Fixes a vulnerability in parsing").data⟩]
      (by decide) (by decide) (by decide) (by decide)]
    decide
  · rw [c1_security_scan.2.2 (("p").data) (("1.2.0").data)
      ⟨("1.3.0").data, ("https://github.com/a/b").data⟩ none
      ⟨("v1.3.0").data, ("rel").data, ("Fixes a vulnerability in parsing").data⟩
      (.ok []) (by decide) (by decide) (by decide) (by decide)]
    decide

/-! ## Lemmas on prefix/suffix trimming for URL parsing -/

theorem isPrefixOf_self_append (p x : List Char) :
    List.isPrefixOf p (p ++ x) = true := by
  induction p with
  | nil => simp [List.isPrefixOf]
  | cons c cs ih => simp [List.isPrefixOf, ih]

theorem goTrimPre_yes (p x : List Char) : goTrimPre p (p ++ x) = x := by
  simp only [goTrimPre, hasPre, isPrefixOf_self_append, if_true]
  exact List.drop_left p x

theorem goTrimPre_no (p s : List Char) (h : hasPre p s = false) :
    goTrimPre p s = s := by
  simp [goTrimPre, h]

theorem goTrimSuf_yes (p x : List Char) : goTrimSuf p (x ++ p) = x := by
  have hsuf : List.isSuffixOf p (x ++ p) = true := by
    simp only [List.isSuffixOf, List.reverse_append]
    exact isPrefixOf_self_append p.reverse x.reverse
  simp only [goTrimSuf, hsuf, if_true, List.length_append]
  rw [show x.length + p.length - p.length = x.length by omega]
  exact List.take_left x p

/-- URL shape `https://<host>/<owner>/<repo>.git`. -/
def httpsURL (host o r : List Char) : List Char :=
  ("https://").data ++ (host ++ ('/' :: (o ++ ('/' :: (r ++ (".git").data)))))

/-- `https://github.com/<owner>/<repo>.git` resolves to the two path
segments after the host. -/
theorem parseRepoURL_github (o r : List Char)
    (ho1 : o.isEmpty = false) (hr1 : r.isEmpty = false)
    (ho2 : '/' ∉ o) (hr2 : '/' ∉ r)
    (ho3 : ':' ∉ o) (hr3 : ':' ∉ r)
    (ho4 : '#' ∉ o) (hr4 : '#' ∉ r) :
    parseGitHubRepoURL (httpsURL (("github.com").data) o r) = (o, r) := by
  have hhash : '#' ∉ ("github.com").data ++ ('/' :: (o ++ ('/' :: (r ++ (".git").data)))) := by
    simp only [List.mem_append, List.mem_cons]
    push_neg
    exact ⟨by decide, by decide, ho4, by decide, hr4, by decide⟩
  have hcolon : ':' ∉ ("github.com").data ++ ('/' :: (o ++ ('/' :: r))) := by
    simp only [List.mem_append, List.mem_cons]
    push_neg
    exact ⟨by decide, by decide, ho3, by decide, hr3⟩
  have hu5 : goTrimPre (("git@").data) (goTrimPre (("http://").data)
      (goTrimPre (("https://").data) (goTrimPre (("git+https://").data)
        (goTrimPre (("git://").data) (httpsURL (("github.com").data) o r))))) =
      ("github.com").data ++ ('/' :: (o ++ ('/' :: (r ++ (".git").data)))) := rfl
  have hassoc : ("github.com").data ++ ('/' :: (o ++ ('/' :: (r ++ (".git").data)))) =
      (("github.com").data ++ ('/' :: (o ++ ('/' :: r)))) ++ (".git").data := by
    simp [List.append_assoc]
  simp only [parseGitHubRepoURL]
  rw [hu5]
  rw [splitOnChar_not_mem '#' _ hhash]
  simp only [List.headD_cons]
  rw [hassoc, goTrimSuf_yes]
  rw [splitOnChar_not_mem ':' _ hcolon]
  simp only [List.length_cons, List.length_nil, gt_iff_lt, Nat.zero_add,
    Nat.lt_irrefl, if_false]
  rw [splitOnChar_append_sep '/' _ _ (by decide)]
  rw [splitOnChar_append_sep '/' _ _ ho2]
  rw [splitOnChar_not_mem '/' _ hr2]
  simp [ho1, hr1, List.filter,
    show containsSub (("github.com").data) (("github.com").data) = true from by decide]

/-- `https://gitlab.com/<owner>/<repo>.git` resolves the same way. -/
theorem parseRepoURL_gitlab (o r : List Char)
    (ho1 : o.isEmpty = false) (hr1 : r.isEmpty = false)
    (ho2 : '/' ∉ o) (hr2 : '/' ∉ r)
    (ho3 : ':' ∉ o) (hr3 : ':' ∉ r)
    (ho4 : '#' ∉ o) (hr4 : '#' ∉ r) :
    parseGitHubRepoURL (httpsURL (("gitlab.com").data) o r) = (o, r) := by
  have hhash : '#' ∉ ("gitlab.com").data ++ ('/' :: (o ++ ('/' :: (r ++ (".git").data)))) := by
    simp only [List.mem_append, List.mem_cons]
    push_neg
    exact ⟨by decide, by decide, ho4, by decide, hr4, by decide⟩
  have hcolon : ':' ∉ ("gitlab.com").data ++ ('/' :: (o ++ ('/' :: r))) := by
    simp only [List.mem_append, List.mem_cons]
    push_neg
    exact ⟨by decide, by decide, ho3, by decide, hr3⟩
  have hu5 : goTrimPre (("git@").data) (goTrimPre (("http://").data)
      (goTrimPre (("https://").data) (goTrimPre (("git+https://").data)
        (goTrimPre (("git://").data) (httpsURL (("gitlab.com").data) o r))))) =
      ("gitlab.com").data ++ ('/' :: (o ++ ('/' :: (r ++ (".git").data)))) := rfl
  have hassoc : ("gitlab.com").data ++ ('/' :: (o ++ ('/' :: (r ++ (".git").data)))) =
      (("gitlab.com").data ++ ('/' :: (o ++ ('/' :: r)))) ++ (".git").data := by
    simp [List.append_assoc]
  simp only [parseGitHubRepoURL]
  rw [hu5]
  rw [splitOnChar_not_mem '#' _ hhash]
  simp only [List.headD_cons]
  rw [hassoc, goTrimSuf_yes]
  rw [splitOnChar_not_mem ':' _ hcolon]
  simp only [List.length_cons, List.length_nil, gt_iff_lt, Nat.zero_add,
    Nat.lt_irrefl, if_false]
  rw [splitOnChar_append_sep '/' _ _ (by decide)]
  rw [splitOnChar_append_sep '/' _ _ ho2]
  rw [splitOnChar_not_mem '/' _ hr2]
  simp [ho1, hr1, List.filter,
    show containsSub (("gitlab.com").data) (("gitlab.com").data) = true from by decide,
    show containsSub (("github.com").data) (("gitlab.com").data) = false from by decide]

/-- URL shape `git@<host>:<owner>/<repo>.git`. -/
def sshURL (host o r : List Char) : List Char :=
  ("git@").data ++ (host ++ (':' :: (o ++ ('/' :: (r ++ (".git").data)))))

/-- ssh-style `git@<host>:<owner>/<repo>.git` resolves to the first two
path segments after the colon. -/
theorem parseRepoURL_ssh (host o r : List Char)
    (hh1 : ':' ∉ host) (hh2 : '#' ∉ host)
    (ho1 : o.isEmpty = false) (hr1 : r.isEmpty = false)
    (ho2 : '/' ∉ o) (hr2 : '/' ∉ r)
    (ho3 : ':' ∉ o) (hr3 : ':' ∉ r)
    (ho4 : '#' ∉ o) (hr4 : '#' ∉ r)
    (hgo1 : containsSub (("github.com").data) o = false)
    (hgo2 : containsSub (("gitlab.com").data) o = false) :
    parseGitHubRepoURL (sshURL host o r) = (o, r) := by
  have hhash : '#' ∉ host ++ (':' :: (o ++ ('/' :: (r ++ (".git").data)))) := by
    simp only [List.mem_append, List.mem_cons]
    push_neg
    exact ⟨hh2, by decide, ho4, by decide, hr4, by decide⟩
  have hu5 : goTrimPre (("git@").data) (goTrimPre (("http://").data)
      (goTrimPre (("https://").data) (goTrimPre (("git+https://").data)
        (goTrimPre (("git://").data) (sshURL host o r))))) =
      host ++ (':' :: (o ++ ('/' :: (r ++ (".git").data)))) := by
    have h1 : goTrimPre (("git://").data) (sshURL host o r) = sshURL host o r :=
      goTrimPre_no _ _ (by rfl)
    have h2 : goTrimPre (("git+https://").data) (sshURL host o r) = sshURL host o r :=
      goTrimPre_no _ _ (by rfl)
    have h3 : goTrimPre (("https://").data) (sshURL host o r) = sshURL host o r :=
      goTrimPre_no _ _ (by rfl)
    have h4 : goTrimPre (("http://").data) (sshURL host o r) = sshURL host o r :=
      goTrimPre_no _ _ (by rfl)
    rw [h1, h2, h3, h4]
    exact goTrimPre_yes (("git@").data) _
  have hassoc : host ++ (':' :: (o ++ ('/' :: (r ++ (".git").data)))) =
      (host ++ (':' :: (o ++ ('/' :: r)))) ++ (".git").data := by
    simp [List.append_assoc]
  simp only [parseGitHubRepoURL]
  rw [hu5]
  rw [splitOnChar_not_mem '#' _ hhash]
  simp only [List.headD_cons]
  rw [hassoc, goTrimSuf_yes]
  rw [splitOnChar_append_sep ':' _ _ hh1]
  rw [splitOnChar_not_mem ':' _ (by
    simp only [List.mem_append, List.mem_cons]
    push_neg
    exact ⟨ho3, by decide, hr3⟩)]
  simp only [List.length_cons, List.length_nil, gt_iff_lt]
  have hcond : (1 : Nat) < 0 + 1 + 1 := by omega
  rw [if_pos hcond]
  simp only [List.getD_cons_succ, List.getD_cons_zero]
  rw [splitOnChar_append_sep '/' _ _ ho2]
  rw [splitOnChar_not_mem '/' _ hr2]
  simp [ho1, hr1, List.filter, hgo1, hgo2]

/-- URL shape `https://<host>/<seg>.git` — only one path segment. -/
def shortURL (host o : List Char) : List Char :=
  ("https://").data ++ (host ++ ('/' :: (o ++ (".git").data)))

/-- `https://github.com/<seg>.git`: with fewer than two segments after
the host, the parser returns the empty pair. -/
theorem parseRepoURL_short (o : List Char)
    (ho1 : o.isEmpty = false) (ho2 : '/' ∉ o) (ho3 : ':' ∉ o) (ho4 : '#' ∉ o) :
    parseGitHubRepoURL (shortURL (("github.com").data) o) = ([], []) := by
  have hhash : '#' ∉ ("github.com").data ++ ('/' :: (o ++ (".git").data)) := by
    simp only [List.mem_append, List.mem_cons]
    push_neg
    exact ⟨by decide, by decide, ho4, by decide⟩
  have hcolon : ':' ∉ ("github.com").data ++ ('/' :: o) := by
    simp only [List.mem_append, List.mem_cons]
    push_neg
    exact ⟨by decide, by decide, ho3⟩
  have hu5 : goTrimPre (("git@").data) (goTrimPre (("http://").data)
      (goTrimPre (("https://").data) (goTrimPre (("git+https://").data)
        (goTrimPre (("git://").data) (shortURL (("github.com").data) o))))) =
      ("github.com").data ++ ('/' :: (o ++ (".git").data)) := rfl
  have hassoc : ("github.com").data ++ ('/' :: (o ++ (".git").data)) =
      (("github.com").data ++ ('/' :: o)) ++ (".git").data := by
    simp [List.append_assoc]
  simp only [parseGitHubRepoURL]
  rw [hu5]
  rw [splitOnChar_not_mem '#' _ hhash]
  simp only [List.headD_cons]
  rw [hassoc, goTrimSuf_yes]
  rw [splitOnChar_not_mem ':' _ hcolon]
  simp only [List.length_cons, List.length_nil, gt_iff_lt, Nat.zero_add,
    Nat.lt_irrefl, if_false]
  rw [splitOnChar_append_sep '/' _ _ (by decide)]
  rw [splitOnChar_not_mem '/' _ ho2]
  simp [ho1, List.filter,
    show containsSub (("github.com").data) (("github.com").data) = true from by decide]

/-- `https://<non-github-host>/<a>/<b>.git`: the parser falls back to the
first two non-empty slash-separated segments of the remaining string —
the host itself becomes the "owner". -/
theorem parseRepoURL_other (o r : List Char)
    (ho1 : o.isEmpty = false) (hr1 : r.isEmpty = false)
    (ho2 : '/' ∉ o) (hr2 : '/' ∉ r)
    (ho3 : ':' ∉ o) (hr3 : ':' ∉ r)
    (ho4 : '#' ∉ o) (hr4 : '#' ∉ r) :
    parseGitHubRepoURL (httpsURL (("example.org").data) o r) =
      ((("example.org").data), o) := by
  have hhash : '#' ∉ ("example.org").data ++ ('/' :: (o ++ ('/' :: (r ++ (".git").data)))) := by
    simp only [List.mem_append, List.mem_cons]
    push_neg
    exact ⟨by decide, by decide, ho4, by decide, hr4, by decide⟩
  have hcolon : ':' ∉ ("example.org").data ++ ('/' :: (o ++ ('/' :: r))) := by
    simp only [List.mem_append, List.mem_cons]
    push_neg
    exact ⟨by decide, by decide, ho3, by decide, hr3⟩
  have hu5 : goTrimPre (("git@").data) (goTrimPre (("http://").data)
      (goTrimPre (("https://").data) (goTrimPre (("git+https://").data)
        (goTrimPre (("git://").data) (httpsURL (("example.org").data) o r))))) =
      ("example.org").data ++ ('/' :: (o ++ ('/' :: (r ++ (".git").data)))) := rfl
  have hassoc : ("example.org").data ++ ('/' :: (o ++ ('/' :: (r ++ (".git").data)))) =
      (("example.org").data ++ ('/' :: (o ++ ('/' :: r)))) ++ (".git").data := by
    simp [List.append_assoc]
  simp only [parseGitHubRepoURL]
  rw [hu5]
  rw [splitOnChar_not_mem '#' _ hhash]
  simp only [List.headD_cons]
  rw [hassoc, goTrimSuf_yes]
  rw [splitOnChar_not_mem ':' _ hcolon]
  simp only [List.length_cons, List.length_nil, gt_iff_lt, Nat.zero_add,
    Nat.lt_irrefl, if_false]
  rw [splitOnChar_append_sep '/' _ _ (by decide)]
  rw [splitOnChar_append_sep '/' _ _ ho2]
  rw [splitOnChar_not_mem '/' _ hr2]
  simp [ho1, hr1, List.filter,
    show containsSub (("gitlab.com").data) (("example.org").data) = false from by decide,
    show containsSub (("github.com").data) (("example.org").data) = false from by decide]

/-! ## C7: source URL parsing -/

/-- C7: the URL parser strips the scheme, a trailing `#fragment` and a
`.git` suffix; for a host containing `github.com` or `gitlab.com` it
returns the two path segments following the host; for ssh-style
`git@host:owner/repo` it returns the two segments after the colon; with
fewer than two segments after a GitHub host it returns the empty pair;
for any other host it returns the first two non-empty slash-separated
segments of the remaining string (the host becoming the first); and
`git+https://github.com/acme/widget.git` resolves to `acme`/`widget`. -/
theorem c7_url_parsing :
    parseGitHubRepoURL (("git+https://github.com/acme/widget.git").data) =
      ((("acme").data), (("widget").data)) ∧
    (∀ o r : List Char, o.isEmpty = false → r.isEmpty = false →
      '/' ∉ o → '/' ∉ r → ':' ∉ o → ':' ∉ r → '#' ∉ o → '#' ∉ r →
      parseGitHubRepoURL (httpsURL (("github.com").data) o r) = (o, r)) ∧
    (∀ o r : List Char, o.isEmpty = false → r.isEmpty = false →
      '/' ∉ o → '/' ∉ r → ':' ∉ o → ':' ∉ r → '#' ∉ o → '#' ∉ r →
      parseGitHubRepoURL (httpsURL (("gitlab.com").data) o r) = (o, r)) ∧
    (∀ host o r : List Char, ':' ∉ host → '#' ∉ host →
      o.isEmpty = false → r.isEmpty = false →
      '/' ∉ o → '/' ∉ r → ':' ∉ o → ':' ∉ r → '#' ∉ o → '#' ∉ r →
      containsSub (("github.com").data) o = false →
      containsSub (("gitlab.com").data) o = false →
      parseGitHubRepoURL (sshURL host o r) = (o, r)) ∧
    (∀ o : List Char, o.isEmpty = false → '/' ∉ o → ':' ∉ o → '#' ∉ o →
      parseGitHubRepoURL (shortURL (("github.com").data) o) = ([], [])) ∧
    (∀ o r : List Char, o.isEmpty = false → r.isEmpty = false →
      '/' ∉ o → '/' ∉ r → ':' ∉ o → ':' ∉ r → '#' ∉ o → '#' ∉ r →
      parseGitHubRepoURL (httpsURL (("example.org").data) o r) =
        ((("example.org").data), o)) :=
  ⟨by decide, parseRepoURL_github, parseRepoURL_gitlab, parseRepoURL_ssh,
    parseRepoURL_short, parseRepoURL_other⟩

/-- C7 witness: the general clauses at `acme`/`widget` over the GitHub,
GitLab, ssh, single-segment and foreign-host shapes. -/
theorem c7_url_parsing_witness :
    parseGitHubRepoURL (httpsURL (("github.com").data) (("acme").data)
      (("widget").data)) = ((("acme").data), (("widget").data)) ∧
    parseGitHubRepoURL (httpsURL (("gitlab.com").data) (("acme").data)
      (("widget").data)) = ((("acme").data), (("widget").data)) ∧
    parseGitHubRepoURL (sshURL (("github.com").data) (("acme").data)
      (("widget").data)) = ((("acme").data), (("widget").data)) ∧
    parseGitHubRepoURL (shortURL (("github.com").data) (("acme").data)) = ([], []) ∧
    parseGitHubRepoURL (httpsURL (("example.org").data) (("acme").data)
      (("widget").data)) = ((("example.org").data), (("acme").data)) :=
  ⟨c7_url_parsing.2.1 (("acme").data) (("widget").data) (by decide) (by decide)
    (by decide) (by decide) (by decide) (by decide) (by decide) (by decide),
   c7_url_parsing.2.2.1 (("acme").data) (("widget").data) (by decide) (by decide)
    (by decide) (by decide) (by decide) (by decide) (by decide) (by decide),
   c7_url_parsing.2.2.2.1 (("github.com").data) (("acme").data) (("widget").data)
    (by decide) (by decide) (by decide) (by decide) (by decide) (by decide)
    (by decide) (by decide) (by decide) (by decide) (by decide) (by decide),
   c7_url_parsing.2.2.2.2.1 (("acme").data) (by decide) (by decide) (by decide)
    (by decide),
   c7_url_parsing.2.2.2.2.2 (("acme").data) (("widget").data) (by decide)
    (by decide) (by decide) (by decide) (by decide) (by decide) (by decide)
    (by decide)⟩

/-! ## Lemmas on `splitDashes` and the `"---"` marker -/

theorem containsSub_cons_false (n : List Char) (x : Char) (xs : List Char)
    (h : containsSub n (x :: xs) = false) : containsSub n xs = false := by
  simp only [containsSub, Bool.or_eq_false_iff] at h
  exact h.2

theorem isPre3_cons_false (x : Char) (hx : ¬ x = '-') (l : List Char) :
    List.isPrefixOf (("---").data) (x :: l) = false := by
  have h1 : ('-' == x) = false := beq_eq_false_iff_ne.mpr (fun h => hx h.symm)
  simp [List.isPrefixOf, h1]

theorem contains3_cons (x : Char) (b : List Char) (hx : ¬ x = '-') :
    containsSub (("---").data) (x :: b) = containsSub (("---").data) b := by
  simp [containsSub, isPre3_cons_false x hx]

theorem contains3_append_single (b : List Char) (c : Char) (hc : ¬ c = '-') :
    containsSub (("---").data) (b ++ [c]) = containsSub (("---").data) b := by
  induction b with
  | nil => simp [containsSub, List.isPrefixOf]
  | cons x b' ih =>
    have hpre : List.isPrefixOf (("---").data) (x :: (b' ++ [c])) =
        List.isPrefixOf (("---").data) (x :: b') := by
      rcases b' with _ | ⟨y, b''⟩
      · simp [List.isPrefixOf]
      · rcases b'' with _ | ⟨z, b'''⟩
        · simp [List.isPrefixOf]
          exact fun _ _ h => hc h.symm
        · simp [List.isPrefixOf]
    have hgoal : containsSub (("---").data) ((x :: b') ++ [c]) =
        (List.isPrefixOf (("---").data) (x :: (b' ++ [c])) ||
          containsSub (("---").data) (b' ++ [c])) := rfl
    rw [hgoal, hpre, ih]
    rfl

/-- Unfolding step for `splitDashes` on a three-character window. -/
theorem splitDashes_cons3 (x y z : Char) (rest : List Char) :
    splitDashes (x :: y :: z :: rest) =
      (if x = '-' ∧ y = '-' ∧ z = '-' then [] :: splitDashes rest
       else sdCons x (splitDashes (y :: z :: rest))) := rfl

theorem splitDashes_sep (b : List Char) :
    splitDashes ('-' :: '-' :: '-' :: b) = [] :: splitDashes b := by
  rw [splitDashes_cons3, if_pos ⟨rfl, rfl, rfl⟩]

theorem splitDashes_not_mem (s : List Char)
    (h : containsSub (("---").data) s = false) : splitDashes s = [s] := by
  induction s with
  | nil => rfl
  | cons x s' ih =>
    have hs' := containsSub_cons_false _ _ _ h
    rcases s' with _ | ⟨y, s''⟩
    · rfl
    · rcases s'' with _ | ⟨z, s'''⟩
      · rfl
      · have hcond : ¬ (x = '-' ∧ y = '-' ∧ z = '-') := by
          rintro ⟨h1, h2, h3⟩
          subst h1; subst h2; subst h3
          simp [containsSub, List.isPrefixOf] at h
        rw [splitDashes_cons3, if_neg hcond, ih hs']
        rfl

theorem splitDashes_append_sep (a b : List Char)
    (ha : containsSub (("---").data) a = false)
    (hlast : a.getLast? ≠ some '-') :
    splitDashes (a ++ '-' :: '-' :: '-' :: b) = a :: splitDashes b := by
  induction a with
  | nil =>
    rw [List.nil_append, splitDashes_sep]
  | cons x a' ih =>
    have ha' := containsSub_cons_false _ _ _ ha
    rcases a' with _ | ⟨y, a''⟩
    · have hx : ¬ x = '-' := by
        intro he
        exact hlast (by simp [he])
      rw [List.cons_append, List.nil_append, splitDashes_cons3,
        if_neg (fun hh => hx hh.1), splitDashes_sep]
      rfl
    · have hl : (y :: a'').getLast? ≠ some '-' := by
        simpa [List.getLast?_cons_cons] using hlast
      rcases a'' with _ | ⟨z, a3⟩
      · have hy : ¬ y = '-' := by
          intro he
          exact hl (by simp [he])
        rw [List.cons_append, List.cons_append, List.nil_append,
          splitDashes_cons3, if_neg (fun hh => hy hh.2.1)]
        rw [show splitDashes (y :: '-' :: '-' :: '-' :: b) = [y] :: splitDashes b from by
          rw [splitDashes_cons3, if_neg (fun hh => hy hh.1), splitDashes_sep]
          rfl]
        rfl
      · have hcond : ¬ (x = '-' ∧ y = '-' ∧ z = '-') := by
          rintro ⟨h1, h2, h3⟩
          subst h1; subst h2; subst h3
          simp [containsSub, List.isPrefixOf] at ha
        simp only [List.cons_append]
        rw [splitDashes_cons3, if_neg hcond]
        have ih2 : splitDashes (y :: z :: (a3 ++ '-' :: '-' :: '-' :: b)) =
            (y :: z :: a3) :: splitDashes b := by
          have := ih ha' hl
          simpa only [List.cons_append] using this
        rw [ih2]
        rfl

/-! ## Trim lemmas for the changelog format -/

theorem goTrimSpace_cons_space (c : Char) (s : List Char) (hc : goIsSpace c = true) :
    goTrimSpace (c :: s) = goTrimSpace s := by
  simp [goTrimSpace, List.dropWhile_cons, hc]

theorem dropRightBy_append_single (p : Char → Bool) (x : List Char) (c : Char)
    (hc : p c = true) : dropRightBy p (x ++ [c]) = dropRightBy p x := by
  induction x with
  | nil => simp [dropRightBy, hc]
  | cons a x' ih =>
    show (match dropRightBy p (x' ++ [c]) with
      | [] => if p a then [] else [a]
      | r => a :: r) = dropRightBy p (a :: x')
    rw [ih]
    rfl

theorem goTrimSpace_append_space (y : List Char) (c : Char) (hc : goIsSpace c = true) :
    goTrimSpace (y ++ [c]) = goTrimSpace y := by
  simp only [goTrimSpace, List.dropWhile_append]
  by_cases he : (y.dropWhile goIsSpace).isEmpty
  · simp [he, List.dropWhile_cons, hc, dropRightBy,
      List.isEmpty_iff.mp he]
  · simp only [he, if_false, Bool.false_eq_true]
    exact dropRightBy_append_single goIsSpace _ c hc

theorem goTrimSpace_wrap (body : List Char) :
    goTrimSpace ('\n' :: (body ++ [('\n' : Char)])) = goTrimSpace body := by
  rw [goTrimSpace_cons_space '\n' _ (by decide)]
  exact goTrimSpace_append_space body '\n' (by decide)

/-! ## C6: changelog excerpt -/

/-- C6 helper: the changelog cell computed by `writeOutput` from a
formatted release entry equals the direct character pipeline applied to
the release body. -/
theorem changelogSummary_fmt (body : List Char)
    (hb : containsSub (("---").data) body = false) :
    changelogSummary (npmDetail ⟨("v9.9.9").data, ("react").data, body⟩
      (("acme").data) (("widget").data)) = some (summaryOfBody body) := by
  have htail : containsSub (("---").data) ('\n' :: (body ++ [('\n' : Char)])) = false := by
    rw [contains3_cons '\n' _ (by decide), contains3_append_single _ '\n' (by decide)]
    exact hb
  have hsplit : splitDashes (npmDetail ⟨("v9.9.9").data, ("react").data, body⟩
      (("acme").data) (("widget").data)) =
      [('\n' : Char) :: [],
       (" Latest Changelog for react (Tag: v9.9.9) (Owner: acme) (Repo: widget) ").data,
       '\n' :: (body ++ [('\n' : Char)])] := by
    rw [show npmDetail ⟨("v9.9.9").data, ("react").data, body⟩
        (("acme").data) (("widget").data) =
      [('\n' : Char)] ++ '-' :: '-' :: '-' ::
        ((" Latest Changelog for react (Tag: v9.9.9) (Owner: acme) (Repo: widget) ").data ++
          '-' :: '-' :: '-' :: ('\n' :: (body ++ [('\n' : Char)]))) from rfl]
    rw [splitDashes_append_sep _ _ (by decide) (by decide)]
    rw [splitDashes_append_sep _ _ (by decide) (by decide)]
    rw [splitDashes_not_mem _ htail]
  have hget : (splitDashes (npmDetail ⟨("v9.9.9").data, ("react").data, body⟩
      (("acme").data) (("widget").data))).get? 2 =
      some ('\n' :: (body ++ [('\n' : Char)])) := by
    rw [hsplit]
    rfl
  simp only [changelogSummary, extractBodyFromChangelog, hget]
  rw [goTrimSpace_wrap]
  rfl

/-- No unescaped pipe: every `'|'` is immediately preceded by a `'\'`. -/
def noBarePipe : List Char → Bool
  | [] => true
  | [c] => c ≠ '|'
  | c :: d :: rest =>
    if c = '\\' ∧ d = '|' then noBarePipe rest
    else if c = '|' then false
    else noBarePipe (d :: rest)

theorem noBarePipe_of_no_pipe (t : List Char) (h : '|' ∉ t) : noBarePipe t = true := by
  induction t using noBarePipe.induct with
  | case1 => rfl
  | case2 c =>
    simp only [List.mem_singleton] at h
    have hc : ¬ c = '|' := fun he => h he.symm
    simp [noBarePipe, hc]
  | case3 c d rest hcd ih =>
    exact absurd (by simp [hcd.2] : '|' ∈ c :: d :: rest) h
  | case4 d rest hcd =>
    exact absurd (List.mem_cons_self '|' (d :: rest)) h
  | case5 c d rest hcd hc ih =>
    have hm : '|' ∉ d :: rest := fun hm => h (List.mem_cons_of_mem c hm)
    simp [noBarePipe, hcd, hc, ih hm]

theorem escapePipes_head (s : List Char) : (escapePipes s).head? ≠ some '|' := by
  cases s with
  | nil => simp [escapePipes]
  | cons c rest =>
    by_cases hc : c = '|'
    · simp [escapePipes, hc]
    · simp [escapePipes, hc]

theorem noBarePipe_escape (s : List Char) : noBarePipe (escapePipes s) = true := by
  induction s with
  | nil => rfl
  | cons c rest ih =>
    by_cases hc : c = '|'
    · simp only [escapePipes, if_pos hc]
      cases hs : escapePipes rest with
      | nil => rfl
      | cons e es =>
        rw [hs] at ih
        simpa [noBarePipe] using ih
    · simp only [escapePipes, if_neg hc]
      cases hs : escapePipes rest with
      | nil => simp [noBarePipe, hc]
      | cons e es =>
        rw [hs] at ih
        have he : ¬ e = '|' := by
          have hh := escapePipes_head rest
          rw [hs] at hh
          intro h2
          exact hh (by rw [h2, List.head?_cons])
        rw [show noBarePipe (c :: e :: es) =
          (if c = '\\' ∧ e = '|' then noBarePipe es
           else if c = '|' then false else noBarePipe (e :: es)) from rfl]
        rw [if_neg (fun hh => he hh.2), if_neg hc]
        exact ih

theorem noBarePipe_take (s : List Char) (hs : noBarePipe s = true) (n : Nat) :
    noBarePipe (s.take n) = true := by
  induction s using noBarePipe.induct generalizing n with
  | case1 => cases n <;> rfl
  | case2 c =>
    cases n with
    | zero => rfl
    | succ m => cases m <;> exact hs
  | case3 c d rest hcd ih =>
    obtain ⟨h1, h2⟩ := hcd
    subst h1; subst h2
    have hrest : noBarePipe rest = true := by
      rw [show noBarePipe ('\\' :: '|' :: rest) = noBarePipe rest from by
        rw [show noBarePipe ('\\' :: '|' :: rest) =
          (if ('\\' : Char) = '\\' ∧ ('|' : Char) = '|' then noBarePipe rest
           else if ('\\' : Char) = '|' then false
           else noBarePipe ('|' :: rest)) from rfl, if_pos ⟨rfl, rfl⟩]] at hs
      exact hs
    match n with
    | 0 => rfl
    | 1 => rfl
    | m + 2 =>
      rw [List.take_succ_cons, List.take_succ_cons]
      rw [show noBarePipe ('\\' :: '|' :: List.take m rest) =
        (if ('\\' : Char) = '\\' ∧ ('|' : Char) = '|' then noBarePipe (List.take m rest)
         else if ('\\' : Char) = '|' then false
         else noBarePipe ('|' :: List.take m rest)) from rfl, if_pos ⟨rfl, rfl⟩]
      exact ih hrest m
  | case4 d rest hcd =>
    rw [show noBarePipe ('|' :: d :: rest) =
      (if ('|' : Char) = '\\' ∧ d = '|' then noBarePipe rest
       else if ('|' : Char) = '|' then false
       else noBarePipe (d :: rest)) from rfl, if_neg hcd, if_pos rfl] at hs
    exact absurd hs (by simp)
  | case5 c d rest hcd hc ih =>
    have htl : noBarePipe (d :: rest) = true := by
      rw [show noBarePipe (c :: d :: rest) =
        (if c = '\\' ∧ d = '|' then noBarePipe rest
         else if c = '|' then false
         else noBarePipe (d :: rest)) from rfl, if_neg hcd, if_neg hc] at hs
      exact hs
    match n with
    | 0 => rfl
    | m + 1 =>
      rw [List.take_succ_cons]
      have := ih htl m
      cases hm : (d :: rest).take m with
      | nil => simp [noBarePipe, hc]
      | cons e es =>
        have hed : e = d := by
          cases m with
          | zero => simp at hm
          | succ k =>
            rw [List.take_succ_cons] at hm
            injection hm with h1 h2
            exact h1.symm
        rw [hm] at this
        rw [show noBarePipe (c :: e :: es) =
          (if c = '\\' ∧ e = '|' then noBarePipe es
           else if c = '|' then false
           else noBarePipe (e :: es)) from rfl,
          if_neg (by rw [hed]; exact hcd), if_neg hc]
        exact this
theorem noBarePipe_tail (c : Char) (s : List Char) (hc1 : ¬ c = '\\')
    (hc2 : ¬ c = '|') (hs : noBarePipe (c :: s) = true) : noBarePipe s = true := by
  cases s with
  | nil => rfl
  | cons d rest =>
    rw [show noBarePipe (c :: d :: rest) =
      (if c = '\\' ∧ d = '|' then noBarePipe rest
       else if c = '|' then false
       else noBarePipe (d :: rest)) from rfl,
      if_neg (fun hh => hc1 hh.1), if_neg hc2] at hs
    exact hs

theorem noBarePipe_dropWhile_space (s : List Char) (hs : noBarePipe s = true) :
    noBarePipe (s.dropWhile goIsSpace) = true := by
  induction s with
  | nil => rfl
  | cons c rest ih =>
    by_cases hc : goIsSpace c
    · rw [List.dropWhile_cons_of_pos hc]
      have hc1 : ¬ c = '\\' := fun he => by rw [he] at hc; exact absurd hc (by decide)
    
      have hc2 : ¬ c = '|' := fun he => by rw [he] at hc; exact absurd hc (by decide)
      exact ih (noBarePipe_tail c rest hc1 hc2 hs)
    · rw [List.dropWhile_cons_of_neg hc]
      exact hs

theorem dropRightBy_eq_take (p : Char → Bool) (l : List Char) :
    ∃ n, dropRightBy p l = l.take n := by
  induction l with
  | nil => exact ⟨0, rfl⟩
  | cons x xs ih =>
    obtain ⟨n, hn⟩ := ih
    cases h : dropRightBy p xs with
    | nil =>
      by_cases hp : p x
      · refine ⟨0, ?_⟩
        show (match dropRightBy p xs with
          | [] => if p x then [] else [x]
          | r => x :: r) = List.take 0 (x :: xs)
        rw [h, if_pos hp]
        rfl
      · refine ⟨1, ?_⟩
        show (match dropRightBy p xs with
          | [] => if p x then [] else [x]
          | r => x :: r) = List.take 1 (x :: xs)
        rw [h, if_neg hp]
        rfl
    | cons r rs =>
      refine ⟨n + 1, ?_⟩
      rw [h] at hn
      show (match dropRightBy p xs with
        | [] => if p x then [] else [x]
        | r => x :: r) = List.take (n + 1) (x :: xs)
      rw [h, List.take_succ_cons, ← hn]

theorem dropRightBy_length_le (p : Char → Bool) (l : List Char) :
    (dropRightBy p l).length ≤ l.length := by
  obtain ⟨n, hn⟩ := dropRightBy_eq_take p l
  rw [hn, List.length_take]
  omega

theorem goTrimSpace_length_le (s : List Char) :
    (goTrimSpace s).length ≤ s.length := by
  calc (goTrimSpace s).length ≤ (s.dropWhile goIsSpace).length :=
        dropRightBy_length_le goIsSpace _
    _ ≤ s.length := (List.dropWhile_sublist goIsSpace).length_le

theorem noBarePipe_goTrimSpace (s : List Char) (hs : noBarePipe s = true) :
    noBarePipe (goTrimSpace s) = true := by
  obtain ⟨n, hn⟩ := dropRightBy_eq_take goIsSpace (s.dropWhile goIsSpace)
  rw [goTrimSpace, hn]
  exact noBarePipe_take _ (noBarePipe_dropWhile_space s hs) n

theorem noBarePipe_append_no_pipe (a b : List Char) (ha : noBarePipe a = true)
    (hb : '|' ∉ b) : noBarePipe (a ++ b) = true := by
  induction a using noBarePipe.induct with
  | case1 => exact noBarePipe_of_no_pipe b hb
  | case2 c =>
    have hc : ¬ c = '|' := by
      intro he
      rw [show noBarePipe [c] = decide (c ≠ '|') from rfl] at ha
      simp [he] at ha
    cases b with
    | nil => exact ha
    | cons d bs =>
      have hd : ¬ d = '|' := fun he => hb (by rw [he]; exact List.mem_cons_self _ _)
      rw [show ([c] : List Char) ++ d :: bs = c :: d :: bs from rfl,
        show noBarePipe (c :: d :: bs) =
          (if c = '\\' ∧ d = '|' then noBarePipe bs
           else if c = '|' then false
           else noBarePipe (d :: bs)) from rfl,
        if_neg (fun hh => hd hh.2), if_neg hc]
      exact noBarePipe_of_no_pipe _ hb
  | case3 c d rest hcd ih =>
    obtain ⟨h1, h2⟩ := hcd
    subst h1; subst h2
    have hrest : noBarePipe rest = true := by
      rw [show noBarePipe ('\\' :: '|' :: rest) =
        (if ('\\' : Char) = '\\' ∧ ('|' : Char) = '|' then noBarePipe rest
         else if ('\\' : Char) = '|' then false
         else noBarePipe ('|' :: rest)) from rfl, if_pos ⟨rfl, rfl⟩] at ha
      exact ha
    rw [show ('\\' :: '|' :: rest) ++ b = '\\' :: '|' :: (rest ++ b) from rfl,
      show noBarePipe ('\\' :: '|' :: (rest ++ b)) =
        (if ('\\' : Char) = '\\' ∧ ('|' : Char) = '|' then noBarePipe (rest ++ b)
         else if ('\\' : Char) = '|' then false
         else noBarePipe ('|' :: (rest ++ b))) from rfl, if_pos ⟨rfl, rfl⟩]
    exact ih hrest
  | case4 d rest hcd =>
    rw [show noBarePipe ('|' :: d :: rest) =
      (if ('|' : Char) = '\\' ∧ d = '|' then noBarePipe rest
       else if ('|' : Char) = '|' then false
       else noBarePipe (d :: rest)) from rfl, if_neg hcd, if_pos rfl] at ha
    exact absurd ha (by simp)
  | case5 c d rest hcd hc ih =>
    have htl : noBarePipe (d :: rest) = true := by
      rw [show noBarePipe (c :: d :: rest) =
        (if c = '\\' ∧ d = '|' then noBarePipe rest
         else if c = '|' then false
         else noBarePipe (d :: rest)) from rfl, if_neg hcd, if_neg hc] at ha
      exact ha
    rw [show (c :: d :: rest) ++ b = c :: d :: (rest ++ b) from rfl,
      show noBarePipe (c :: d :: (rest ++ b)) =
        (if c = '\\' ∧ d = '|' then noBarePipe (rest ++ b)
         else if c = '|' then false
         else noBarePipe (d :: (rest ++ b))) from rfl, if_neg hcd, if_neg hc]
    exact ih htl

theorem changelogSummary_props (notes b : List Char)
    (h : changelogSummary notes = some b) :
    b.length ≤ 83 ∧ noBarePipe b = true := by
  cases he : extractBodyFromChangelog notes with
  | none =>
    rw [changelogSummary, he] at h
    exact absurd h (by simp)
  | some e =>
    have hnb : noBarePipe e = true := by
      rw [extractBodyFromChangelog] at he
      cases hg : (splitDashes notes).get? 2 with
      | none => rw [hg] at he; exact absurd he (by simp)
      | some chunk =>
        rw [hg] at he
        simp only [Option.some.injEq] at he
        rw [← he]
        exact noBarePipe_escape _
    simp only [changelogSummary, he, Option.map_some', Option.some.injEq] at h
    by_cases hl : e.length > 80
    · rw [if_pos hl] at h
      constructor
      · rw [← h, List.length_append]
        have h1 : (goTrimSpace (e.take 80)).length ≤ 80 :=
          le_trans (goTrimSpace_length_le _)
            (le_trans (List.length_take_le 80 e) (le_refl _))
        simpa using Nat.add_le_add h1 (le_refl (("...").data).length)
      · rw [← h]
        refine noBarePipe_append_no_pipe _ _ ?_ (by decide)
        exact noBarePipe_goTrimSpace _ (noBarePipe_take e hnb 80)
    · rw [if_neg hl] at h
      constructor
      · rw [← h]
        exact le_trans (goTrimSpace_length_le e) (by omega)
      · rw [← h]
        exact noBarePipe_goTrimSpace e hnb
/-- C6 counterexample: the code does not collapse every whitespace run.  A
release body containing a tab run passes through `writeOutput`'s changelog
cell verbatim (tabs kept), while the spec's pipeline (collapse all
whitespace runs, including newlines, to single spaces) renders it with a
single space, so the two excerpts differ. -/
theorem c6_tabs_not_collapsed_cex :
    changelogSummary (npmDetail ⟨("v9.9.9").data, ("react").data, ("a\t\tb").data⟩
        (("acme").data) (("widget").data)) = some (("a\t\tb").data) ∧
    specExcerptOfBody (("a\t\tb").data) = ("a b").data ∧
    ("a\t\tb").data ≠ ("a b").data := by
  refine ⟨by decide, by decide, by decide⟩

/-- C6: for every release body without an embedded "---", the changelog cell
written by `writeOutput` equals the direct character pipeline on the body
(trim, strip the seven markdown characters, replace newline and carriage
return by spaces, collapse runs of double spaces, escape pipes, truncate at
80 characters appending "..." when truncated and re-trimming the kept
prefix); and every cell `changelogSummary` produces is at most 83 characters
(80 plus the three-character ellipsis) and contains no unescaped pipe (every
`'|'` is immediately preceded by `'\'`).  The spec's whitespace description
is corrected: only newlines, carriage returns and double spaces are
collapsed, tab runs survive (`c6_tabs_not_collapsed_cex`). -/
theorem c6_excerpt_construction :
    (∀ body : List Char, containsSub (("---").data) body = false →
      changelogSummary (npmDetail ⟨("v9.9.9").data, ("react").data, body⟩
        (("acme").data) (("widget").data)) = some (summaryOfBody body)) ∧
    (∀ notes b : List Char, changelogSummary notes = some b →
      b.length ≤ 83 ∧ noBarePipe b = true) :=
  ⟨fun body hb => changelogSummary_fmt body hb,
   fun notes b h => changelogSummary_props notes b h⟩

/-- Witness for `c6_excerpt_construction` at the body "Fix | pipe" (which
contains a pipe and no "---"). -/
theorem c6_excerpt_construction_witness :
    changelogSummary (npmDetail ⟨("v9.9.9").data, ("react").data, ("Fix | pipe").data⟩
        (("acme").data) (("widget").data)) = some (summaryOfBody (("Fix | pipe").data)) ∧
    ((summaryOfBody (("Fix | pipe").data)).length ≤ 83 ∧
      noBarePipe (summaryOfBody (("Fix | pipe").data)) = true) :=
  ⟨c6_excerpt_construction.1 (("Fix | pipe").data) (by decide),
   c6_excerpt_construction.2
     (npmDetail ⟨("v9.9.9").data, ("react").data, ("Fix | pipe").data⟩
       (("acme").data) (("widget").data))
     (summaryOfBody (("Fix | pipe").data)) (by decide)⟩
